import Mathlib

/-!
Verification of the Tableflow metadata generator's layout and validation core.

The definitions below are a shallow embedding of the Python sources
`src/Experiments/table_generator.py` and `src/Experiments/dashboard_generator.py`.
A pandas DataFrame of dashboard rows is modelled as a `List Row`; in-place
`df.at` / `df.loc` column assignments are modelled as functional updates of the
list; `Series.unique()` (first-seen order deduplication) is `uniqueFirst`;
Python dictionaries are association lists.  Machine floats only ever hold the
exact values 50 * 1.5 = 75 and 100 * 1.5 = 150 and exact square roots in the
relevant range, so `Nat` arithmetic is a faithful model where it is used.
-/

namespace TFMeta

/-- First-seen-order deduplication with an explicit `seen` accumulator.
Models `pandas.Series.unique()` which keeps the first occurrence of each
value in iteration order. -/
def uniqueFirstAux {α : Type} [DecidableEq α] : List α → List α → List α
  | [], _ => []
  | a :: l, seen => if a ∈ seen then uniqueFirstAux l seen else a :: uniqueFirstAux l (a :: seen)

/-- `pandas.Series.unique()`: the distinct values in first-seen order. -/
def uniqueFirst {α : Type} [DecidableEq α] (l : List α) : List α := uniqueFirstAux l []

/-- Position of the first occurrence of `a` in `l` (0-based). -/
def posOf {α : Type} [DecidableEq α] : List α → α → Option Nat
  | [], _ => none
  | b :: l, a => if b = a then some 0 else (posOf l a).map (· + 1)

/-- Association-list lookup (model of Python `dict` access). -/
def alookup {κ ν : Type} [DecidableEq κ] (k : κ) : List (κ × ν) → Option ν
  | [] => none
  | (a, v) :: l => if a = k then some v else alookup k l

/-- Stable insertion into a (key-)sorted list: the new element goes in front of
the first element whose key is not strictly smaller.  Together with
`insSortBy` this models Python's stable `sorted(..., key=...)`. -/
def insertAsc {α : Type} (key : α → Int) (a : α) : List α → List α
  | [] => [a]
  | b :: l => if key b < key a then b :: insertAsc key a l else a :: b :: l

/-- Stable sort by an integer key (model of Python's stable `sorted`). -/
def insSortBy {α : Type} (key : α → Int) : List α → List α
  | [] => []
  | a :: l => insertAsc key a (insSortBy key l)

/-! ### String helpers

Python string primitives used by the sources, modelled on the character list
underlying a `String`. -/

/-- Python `s.lower()` (ASCII case folding, as used on ASCII field names). -/
def pyLower (s : String) : String := ⟨s.data.map Char.toLower⟩

/-- Python `s.replace(a, b)` for single characters `a`, `b`. -/
def pyReplaceChar (s : String) (a b : Char) : String :=
  ⟨s.data.map (fun c => if c = a then b else c)⟩

/-- Python `s.strip()`: drop leading and trailing whitespace. -/
def pyStrip (s : String) : String :=
  ⟨((s.data.dropWhile Char.isWhitespace).reverse.dropWhile Char.isWhitespace).reverse⟩

/-- `needle` occurs at the start of `hay`. -/
def leadsWith : List Char → List Char → Bool
  | _, [] => true
  | [], _ :: _ => false
  | a :: as, b :: bs => a = b && leadsWith as bs

/-- `needle` occurs somewhere in `hay` (model of Python `needle in hay`). -/
def containsChars : List Char → List Char → Bool
  | [], needle => needle.isEmpty
  | a :: t, needle => leadsWith (a :: t) needle || containsChars t needle

/-- Python substring test `pat in s`. -/
def containsSub (s pat : String) : Bool := containsChars s.data pat.data

/-- Python `"|".join(l)`. -/
def joinPipe : List String → String
  | [] => ""
  | [s] => s
  | s :: l => s ++ "|" ++ joinPipe l

/-! ### FieldSanitizer (`table_generator.py`, `sanitize_field`, lines 32-37) -/

/-- The fixed character set stripped by `sanitize_field`
(`invalid_chars` in `table_generator.py`). -/
def invalid_chars : List Char :=
  ['.', '+', '-', '*', '/', '(', ')', '[', ']', '\"', '\x7b', '\x7d', '_']

/-- Python `field.replace(char, '')`: remove every occurrence of one character. -/
def removeChar (s : String) (c : Char) : String := ⟨s.data.filter (fun x => x ≠ c)⟩

/-- `sanitize_field` from `table_generator.py`: strip each invalid character
in turn. -/
def sanitize_field (field : String) : String := invalid_chars.foldl removeChar field

/-! ### Data model

One dashboard metadata row (`DashboardElementRow`).  A pandas DataFrame is a
`List Row`.  The `field` column may hold a non-string value (e.g. `NaN`),
modelled by `none`.  Columns that the layout/validation core never reads
(display flags, colors, fonts) are omitted; the geometry defaults are the
ones installed by `initialize_dataframe_columns`. -/

structure Row where
  module : String := ""
  dashboard : String := ""
  objectName : String := ""
  objectType : String := ""
  viewType : String := ""
  field : Option String := none
  elementId : String := ""
  posX : Nat := 0
  posY : Nat := 0
  width : Nat := 6
  height : Nat := 14
  posX1 : Nat := 3
  posY1 : Nat := 5
  width1 : Nat := 50
  height1 : Nat := 50
  attrs : String := ""
deriving DecidableEq

instance : Inhabited Row := ⟨{}⟩

/-! ### ElementIdAssigner (`dashboard_generator.py`, `assign_ids`, lines 145-154) -/

/-- The composite dictionary key `f"{row['Module']}|{row['Dashboard']}"`. -/
def rowKey (r : Row) : String := r.module ++ "|" ++ r.dashboard

/-- The loop of `assign_ids`: `dashboard_map` is the association list, and
`element_counter` the running counter. -/
def assignGo : List Row → List (String × Nat) → Nat → List Row
  | [], _, _ => []
  | r :: rs, dashboard_map, element_counter =>
    let dashboard_key := rowKey r
    match alookup dashboard_key dashboard_map with
    | some v => { r with elementId := toString v } :: assignGo rs dashboard_map element_counter
    | none =>
      { r with elementId := toString element_counter }
        :: assignGo rs ((dashboard_key, element_counter) :: dashboard_map) (element_counter + 1)

/-- `DashboardGeneratorAI.assign_ids`. -/
def assign_ids (df : List Row) : List Row := assignGo df [] 1

/-- Spec-level description of the assigned id: one plus the 0-based position of
the row's composite key among the distinct keys in first-seen order. -/
def specElementId (df : List Row) (r : Row) : String :=
  toString ((posOf (uniqueFirst (df.map rowKey)) (rowKey r)).getD 0 + 1)

/-! ### Layout constants and field-name patterns
(`dashboard_generator.py`, lines 24-37) -/

def HORIZONTAL_STEP : Nat := 60
def VERTICAL_STEP : Nat := 55
def INITIAL_X : Nat := 3
def INITIAL_Y : Nat := 5

def ID_PATTERN : List String := ["id", "code", "number", "key"]
def NAME_PATTERN : List String := ["name", "title", "label"]
def DATE_PATTERN : List String := ["date", "created", "modified", "time"]
def AMOUNT_PATTERN : List String := ["amount", "price", "cost", "value", "total"]
def STATUS_PATTERN : List String := ["status", "state", "condition", "phase"]
def CONTACT_PATTERN : List String := ["email", "phone", "contact", "address"]

/-- `field.lower().replace('-', ' ').replace('_', ' ')`. -/
def normalizeFieldName (f : String) : String :=
  pyReplaceChar (pyReplaceChar (pyLower f) '-' ' ') '_' ' '

/-! ### GridLayoutEngine
(`dashboard_generator.py`, `position_dashboard_panels_by_module`, lines 202-230) -/

/-- Panel width: `width = 6; if "Report" in dashboard_elements["Object Type"].values: width += 3`. -/
def panelWidth (dashboard_elements : List Row) : Nat :=
  if (dashboard_elements.map Row.objectType).contains "Report" then 6 + 3 else 6

/-- Panel height: base 14; `if field_count > 8: height += math.ceil((field_count - 8) / 2) * 2`;
`if "Report Summary" in dashboard_elements["View Type"].values: height += 4`.
For `n > 0`, `math.ceil(n / 2) = (n + 1) / 2` in `Nat` arithmetic. -/
def panelHeight (dashboard_elements : List Row) : Nat :=
  let field_count := dashboard_elements.length
  let h1 := if 8 < field_count then 14 + (field_count - 8 + 1) / 2 * 2 else 14
  if (dashboard_elements.map Row.viewType).contains "Report Summary" then h1 + 4 else h1

/-- Write the four panel-geometry columns of one row
(`self.df.at[idx, "PosX"] = ...` etc., lines 220-224). -/
def withPanelGeom (r : Row) (x y w h : Nat) : Row :=
  { r with posX := x, posY := y, width := w, height := h }

/-- Write the panel geometry on every row of the `(module, dashboard)` group
(the `for idx in dashboard_elements.index` loop). -/
def updateGroupGeom (df : List Row) (m d : String) (x y w h : Nat) : List Row :=
  df.map (fun r => if r.module = m ∧ r.dashboard = d then withPanelGeom r x y w h else r)

/-- The `for dashboard in dashboards` loop: cursor state
`(current_x, current_y, max_height_in_row)` threaded left to right, updating
the DataFrame `df` in place. -/
def placeDashboards (mrows : List Row) (m : String) :
    List String → Nat → Nat → Nat → List Row → List Row
  | [], _, _, _, df => df
  | d :: ds, current_x, current_y, max_height_in_row, df =>
    let dashboard_elements := mrows.filter (fun r => r.dashboard = d)
    let w := panelWidth dashboard_elements
    let h := panelHeight dashboard_elements
    let df2 := updateGroupGeom df m d current_x current_y w h
    let mh2 := max max_height_in_row h
    let cx2 := current_x + w
    if 18 ≤ cx2 then placeDashboards mrows m ds 0 (current_y + mh2 + 5) 0 df2
    else placeDashboards mrows m ds cx2 current_y mh2 df2

/-- One iteration of the `for module in modules` loop:
`module_df = self.df[self.df["Module"] == module]`, then the dashboard loop. -/
def panelStep (acc : List Row) (m : String) : List Row :=
  let mrows := acc.filter (fun r => r.module = m)
  placeDashboards mrows m (uniqueFirst (mrows.map Row.dashboard)) 0 0 0 acc

/-- `PositionalAligner.position_dashboard_panels_by_module`: iterate the
modules in first-seen order; within each, its dashboards in first-seen order. -/
def position_dashboard_panels_by_module (df : List Row) : List Row :=
  (uniqueFirst (df.map Row.module)).foldl panelStep df

/-- Pure replay of the cursor loop: the geometry assigned to each dashboard of
one module, as an association list (the geometry is written before the wrap
check, exactly as in the source). -/
def placeMap (mrows : List Row) :
    List String → Nat → Nat → Nat → List (String × (Nat × Nat × Nat × Nat))
  | [], _, _, _ => []
  | d :: ds, current_x, current_y, max_height_in_row =>
    let dashboard_elements := mrows.filter (fun r => r.dashboard = d)
    let w := panelWidth dashboard_elements
    let h := panelHeight dashboard_elements
    let mh2 := max max_height_in_row h
    let cx2 := current_x + w
    (d, (current_x, current_y, w, h)) ::
      (if 18 ≤ cx2 then placeMap mrows ds 0 (current_y + mh2 + 5) 0
       else placeMap mrows ds cx2 current_y mh2)

/-- The rows of module `m` (`self.df[self.df["Module"] == module]`). -/
def mrowsOf (df : List Row) (m : String) : List Row :=
  df.filter (fun r => r.module = m)

/-- Modelled from the spec's wording: panel width is "base 6; +3 if any row in
the group has objectType Report". -/
def specPanelWidth (g : List Row) : Nat :=
  6 + (if g.any (fun r => r.objectType = "Report") then 3 else 0)

/-- `ceil (n / 2)` on naturals (for `n` as a real numerator). -/
def ceilHalf (n : Nat) : Nat := (n + 1) / 2

/-- Modelled from the spec's wording: panel height is "base 14; if the group
has more than 8 rows, add `2 * ceil((fieldCount - 8) / 2)`; if any row's
viewType is ReportSummary (source string `"Report Summary"`), add 4". -/
def specPanelHeight (g : List Row) : Nat :=
  14 + (if 8 < g.length then 2 * ceilHalf (g.length - 8) else 0)
    + (if g.any (fun r => r.viewType = "Report Summary") then 4 else 0)

/-- Modelled from the spec's wording: the cursor walk over one module's
dashboard groups in first-seen order, starting at `(0,0)`; after a placement
`currentX += width`, and when `currentX ≥ 18` it wraps
(`currentX = 0`, `currentY += maxHeightInRow + 5`, `maxHeightInRow` reset). -/
def specPlaceMap (mrows : List Row) :
    List String → Nat → Nat → Nat → List (String × (Nat × Nat × Nat × Nat))
  | [], _, _, _ => []
  | d :: ds, cx, cy, mh =>
    let g := mrows.filter (fun r => r.dashboard = d)
    let w := specPanelWidth g
    let h := specPanelHeight g
    let mh2 := max mh h
    let cx2 := cx + w
    (d, (cx, cy, w, h)) ::
      (if 18 ≤ cx2 then specPlaceMap mrows ds 0 (cy + mh2 + 5) 0
       else specPlaceMap mrows ds cx2 cy mh2)

/-- Install a looked-up panel geometry on a row (no-op when absent). -/
def applyPanelLookup (r : Row) : Option (Nat × Nat × Nat × Nat) → Row
  | some (x, y, w, h) => withPanelGeom r x y w h
  | none => r

/-- The per-row effect of panel layout as implemented: look the row's
dashboard up in its module's cursor walk and install that geometry. -/
def panelImplUpd (df : List Row) (r : Row) : Row :=
  applyPanelLookup r
    (alookup r.dashboard
      (placeMap (mrowsOf df r.module)
        (uniqueFirst ((mrowsOf df r.module).map Row.dashboard)) 0 0 0))

/-- The spec-level per-row effect of panel layout: the same walk with the
spec's width/height formulas. -/
def panelSpecUpd (df : List Row) (r : Row) : Row :=
  applyPanelLookup r
    (alookup r.dashboard
      (specPlaceMap (mrowsOf df r.module)
        (uniqueFirst ((mrowsOf df r.module).map Row.dashboard)) 0 0 0))

/-- The computed panel geometry of the `(m, d)` group of `df` (source replay). -/
def panelGeomFor (df : List Row) (m d : String) : Nat × Nat × Nat × Nat :=
  (alookup d (placeMap (mrowsOf df m)
    (uniqueFirst ((mrowsOf df m).map Row.dashboard)) 0 0 0)).getD (0, 0, 6, 14)

/-! ### FieldLayoutEngine
(`dashboard_generator.py`, `position_dashboard_fields`, lines 232-310) -/

/-- `advanced_field_priority` (lines 242-270): non-strings score 100; otherwise
the normalized name is checked against the ordered `priority_map`, first match
wins, default 20.  (The local pattern lists in the Python closure coincide
with the module-level constants.) -/
def advanced_field_priority (field : Option String) : Int :=
  match field with
  | none => 100
  | some f =>
    let field_lower := normalizeFieldName f
    let priority_map : List (List String × Int) :=
      [(ID_PATTERN, -10), (NAME_PATTERN, -5), (DATE_PATTERN, 0),
       (STATUS_PATTERN, 5), (AMOUNT_PATTERN, 10), (CONTACT_PATTERN, 15)]
    match priority_map.find? (fun pr => pr.1.any (fun p => containsSub field_lower p)) with
    | some pr => pr.2
    | none => 20

/-- Modelled from the spec's wording: the six ordered pattern groups with
scores -10, -5, 0, 5, 10, 15; no match 20; non-string 100. -/
def prioritySpec (field : Option String) : Int :=
  match field with
  | none => 100
  | some f =>
    let n := normalizeFieldName f
    if ID_PATTERN.any (fun p => containsSub n p) then -10
    else if NAME_PATTERN.any (fun p => containsSub n p) then -5
    else if DATE_PATTERN.any (fun p => containsSub n p) then 0
    else if STATUS_PATTERN.any (fun p => containsSub n p) then 5
    else if AMOUNT_PATTERN.any (fun p => containsSub n p) then 10
    else if CONTACT_PATTERN.any (fun p => containsSub n p) then 15
    else 20

/-- Least `k` with `n ≤ k * k`: the value of `math.ceil(math.sqrt(n))` for a
natural `n` (float square roots are exact where it matters here). -/
def ceilSqrt (n : Nat) : Nat :=
  ((List.range (n + 2)).find? (fun k => n ≤ k * k)).getD 0

/-- `column_count = min(max(1, math.ceil(math.sqrt(field_count))), 4)`. -/
def columnCountOf (field_count : Nat) : Nat := min (max 1 (ceilSqrt field_count)) 4

/-- The DataFrame indices of the rows of dashboard `d`
(`self.df[self.df["Dashboard"] == dashboard]`, keyed on dashboard name only). -/
def dashIdxs (df : List Row) (d : String) : List Nat :=
  (List.range df.length).filter (fun i => (df.getD i default).dashboard = d)

/-- The sort key `lambda idx: advanced_field_priority(self.df.at[idx, "Field"])`. -/
def priKey (df : List Row) (i : Nat) : Int :=
  advanced_field_priority ((df.getD i default).field)

/-- `sorted_indices = sorted(field_indices, key=...)` for dashboard `d`. -/
def sortIdx (df : List Row) (d : String) : List Nat :=
  insSortBy (priKey df) (dashIdxs df d)

/-- Field box sizing (lines 292-307): default width 50 / height 74; the
description/date/id pattern overrides, then the length-based width bump
(`min(width * 1.5, 100)`, exact as `width * 3 / 2` for the widths 50, 100). -/
def fieldSize (field_name : String) : Nat × Nat :=
  let normalized_field := normalizeFieldName field_name
  let wh :=
    if ["description", "comment", "notes"].any (fun p => containsSub normalized_field p) then
      (100, 100)
    else if DATE_PATTERN.any (fun p => containsSub normalized_field p) then (50, 64)
    else if ID_PATTERN.any (fun p => containsSub normalized_field p) then (50, 50)
    else (50, 74)
  if 15 < field_name.length then (min (wh.1 * 3 / 2) 100, wh.2) else wh

/-- The body of the `for position, idx in enumerate(sorted_indices)` loop for
one row: set `PosX.1`/`PosY.1` from the sorted position, and, when the field
is a string, `Width.1`/`Height.1` from `fieldSize`. -/
def applyFieldGeom (r : Row) (position column_count : Nat) : Row :=
  let x_pos := INITIAL_X + position % column_count * HORIZONTAL_STEP
  let y_pos := INITIAL_Y + position / column_count * VERTICAL_STEP
  let r1 := { r with posX1 := x_pos, posY1 := y_pos }
  match r.field with
  | some field_name =>
    let wh := fieldSize field_name
    { r1 with width1 := wh.1, height1 := wh.2 }
  | none => r1

/-- Apply `applyFieldGeom` to the row at DataFrame index `i`. -/
def setFieldGeom (df : List Row) (i position column_count : Nat) : List Row :=
  match df[i]? with
  | some r => df.set i (applyFieldGeom r position column_count)
  | none => df

/-- One iteration of the `for dashboard in self.df["Dashboard"].unique()` loop. -/
def fieldStep (acc : List Row) (d : String) : List Row :=
  let idxs := dashIdxs acc d
  let cc := columnCountOf idxs.length
  let sorted := insSortBy (priKey acc) idxs
  sorted.enum.foldl (fun a pi => setFieldGeom a pi.2 pi.1 cc) acc

/-- `PositionalAligner.position_dashboard_fields`. -/
def position_dashboard_fields (df : List Row) : List Row :=
  (uniqueFirst (df.map Row.dashboard)).foldl fieldStep df

/-- Install the field geometry for a looked-up sorted position (no-op when
absent). -/
def applyPosLookup (r : Row) (column_count : Nat) : Option Nat → Row
  | some p => applyFieldGeom r p column_count
  | none => r

/-- The spec-level per-row effect of field layout: the row at sorted position
`p` of its dashboard's group receives position `p` of the
`columnCountOf`-column sub-grid, and string-named fields get `fieldSize`. -/
def fieldRowUpd (df : List Row) (i : Nat) : Row :=
  let r := df.getD i default
  let cc := columnCountOf (dashIdxs df r.dashboard).length
  applyPosLookup r cc (posOf (sortIdx df r.dashboard) i)

/-! ### ViewAttributeSerializer
(`dashboard_generator.py`, `generate_view_type_attributes`, lines 339-350) -/

/-- The groupby key `(Dashboard, Object Name, View Type)`. -/
def vtKey (r : Row) : String × String × String := (r.dashboard, r.objectName, r.viewType)

/-- `clean_field`: `field.replace(" ", "").strip()`. -/
def clean_field (f : String) : String := pyStrip ⟨f.data.filter (fun c => c ≠ ' ')⟩

/-- Serialize one group: distinct non-null field names in encounter order
(`dropna().unique()`), drop the fallback identifier (case-insensitively,
after stripping), clean each, and join `name::False::0::0` segments with `|`. -/
def serializeGroup (g : List Row) : String :=
  let field_names := uniqueFirst (g.filterMap Row.field)
  let fields_cleaned :=
    (field_names.filter (fun f => pyLower (pyStrip f) ≠ "record id")).map clean_field
  joinPipe (fields_cleaned.map (fun f => f ++ "::False::0::0"))

/-- `self.df.loc[group.index, "View Type Attributes"] = attr_string`. -/
def setGroupAttrs (df : List Row) (k : String × String × String) (a : String) : List Row :=
  df.map (fun r => if vtKey r = k then { r with attrs := a } else r)

/-- One iteration of the `for (dashboard, object_name, view_type), group in
grouped` loop. -/
def attrStep (acc : List Row) (k : String × String × String) : List Row :=
  setGroupAttrs acc k (serializeGroup (acc.filter (fun r => vtKey r = k)))

/-- `PositionalAligner.generate_view_type_attributes`: each `(dashboard,
objectName, viewType)` group receives its serialized attribute string.  The
groups are visited in first-seen order (pandas `groupby` visits them in sorted
key order; the updates are disjoint, so the visit order is immaterial). -/
def generate_view_type_attributes (df : List Row) : List Row :=
  (uniqueFirst (df.map vtKey)).foldl attrStep df

/-- The spec-level per-row effect of serialization. -/
def attrsRowUpd (df : List Row) (r : Row) : Row :=
  { r with attrs := serializeGroup (df.filter (fun q => vtKey q = vtKey r)) }

/-! ### SchemaValidator (`table_generator.py`, `validate_fields`, lines 161-184)

Only the three columns that `validate_fields` reads or writes are modelled;
the remaining metadata columns are opaque to it. -/

structure TRow where
  tableName : String := ""
  field : String := ""
  displayField : String := ""
deriving DecidableEq

instance : Inhabited TRow := ⟨{}⟩

/-- The per-row body of the `validate_fields` loop, over the sanitized
column summary. -/
def validateRowImpl (sanitized_summary : List (String × List String)) (row : TRow) : TRow :=
  let valid_columns := (alookup row.tableName sanitized_summary).getD []
  let row_field_clean := sanitize_field row.field
  let row_display_clean := sanitize_field row.displayField
  let row1 :=
    if row_field_clean ∉ valid_columns then { row with field := "Record ID" }
    else { row with field := row_field_clean }
  if row_display_clean ∉ valid_columns ∧ row_display_clean ≠ "Record ID" then
    { row1 with displayField := "Record ID" }
  else { row1 with displayField := row_display_clean }

/-- In-place update of the element at index `i` by `f` (one iteration of a
`for idx, row in df.iterrows()` loop writing back via `df.at[idx, ...]`). -/
def setMapStep {β : Type} (f : β → β) (acc : List β) (i : Nat) : List β :=
  match acc[i]? with
  | some x => acc.set i (f x)
  | none => acc

/-- `TableGeneratorAI.validate_fields`: sanitize the user-data summary, then
repair each row in place (`for idx, row in df.iterrows()` with `df.at`
assignments). -/
def validate_fields (user_data_summary : List (String × List String)) (df : List TRow) :
    List TRow :=
  let sanitized_summary := user_data_summary.map (fun p => (p.1, p.2.map sanitize_field))
  (List.range df.length).foldl (setMapStep (validateRowImpl sanitized_summary)) df

/-! ### Concrete example inputs used by the testable properties -/

/-- Six one-row dashboards in one module (spec property 4: panel wrap). -/
def dfWrap : List Row :=
  [{ module := "M", dashboard := "D1", objectType := "Table", viewType := "List" },
   { module := "M", dashboard := "D2", objectType := "Table", viewType := "List" },
   { module := "M", dashboard := "D3", objectType := "Table", viewType := "List" },
   { module := "M", dashboard := "D4", objectType := "Table", viewType := "List" },
   { module := "M", dashboard := "D5", objectType := "Table", viewType := "List" },
   { module := "M", dashboard := "D6", objectType := "Table", viewType := "List" }]

/-- One dashboard with fields Description / OrderID / CreatedDate
(spec property 5: field priority ordering). -/
def dfPriority : List Row :=
  [{ module := "M", dashboard := "D", field := some "Description" },
   { module := "M", dashboard := "D", field := some "OrderID" },
   { module := "M", dashboard := "D", field := some "CreatedDate" }]

/-- Two modules sharing one dashboard name: field layout groups on dashboard
name alone, so both rows land in one shared sub-grid. -/
def dfShared : List Row :=
  [{ module := "A", dashboard := "D", field := some "Alpha" },
   { module := "B", dashboard := "D", field := some "Beta" }]

/-- The id-assignment example rows `[(M1,D1),(M1,D1),(M1,D2),(M2,D1)]`. -/
def dfIds : List Row :=
  [{ module := "M1", dashboard := "D1" },
   { module := "M1", dashboard := "D1" },
   { module := "M1", dashboard := "D2" },
   { module := "M2", dashboard := "D1" }]

/-- One view group with fields "Order ID" / "Record ID" / "Ship Date"
(spec property 7: view attribute serialization). -/
def dfAttrs : List Row :=
  [{ module := "M", dashboard := "D", objectName := "Orders", viewType := "List",
     field := some "Order ID" },
   { module := "M", dashboard := "D", objectName := "Orders", viewType := "List",
     field := some "Record ID" },
   { module := "M", dashboard := "D", objectName := "Orders", viewType := "List",
     field := some "Ship Date" }]

/-- Rows used for claim C4's sizing examples: `"Notes"`, `"ModifiedDate"`, and
a 21-character name matching no special pattern. -/
def dfSizing : List Row :=
  [{ module := "M", dashboard := "D", field := some "Notes" },
   { module := "M", dashboard := "D", field := some "ModifiedDate" },
   { module := "M", dashboard := "D", field := some "WarehouseLocationCity" }]

/-- A row whose `Field` value is not a string (claim C10), with the
initialized default field geometry. -/
def dfNonString : List Row :=
  [{ module := "M", dashboard := "D", field := none }]

/-- The validator example: a table with raw columns OrderID / Status. -/
def summaryEx : List (String × List String) := [("Orders", ["OrderID", "Status"])]

/-- The validator example rows. -/
def dfValidate : List TRow :=
  [{ tableName := "Orders", field := "Order_ID", displayField := "Status" },
   { tableName := "Orders", field := "Bogus", displayField := "Record ID" }]

section UniqueFirst

variable {α : Type} [DecidableEq α]

theorem mem_uniqueFirstAux {a : α} :
    ∀ {l seen : List α}, a ∈ uniqueFirstAux l seen ↔ a ∈ l ∧ a ∉ seen := by
  intro l
  induction l with
  | nil => intro seen; simp [uniqueFirstAux]
  | cons b l ih =>
    intro seen
    by_cases hb : b ∈ seen
    · simp only [uniqueFirstAux, if_pos hb, ih, List.mem_cons]
      constructor
      · rintro ⟨h1, h2⟩; exact ⟨Or.inr h1, h2⟩
      · rintro ⟨h1 | h1, h2⟩
        · exact absurd (h1 ▸ hb) h2
        · exact ⟨h1, h2⟩
    · simp only [uniqueFirstAux, if_neg hb, List.mem_cons, ih]
      constructor
      · rintro (rfl | ⟨h1, h2⟩)
        · exact ⟨Or.inl rfl, hb⟩
        · refine ⟨Or.inr h1, fun hc => h2 (Or.inr hc)⟩
      · rintro ⟨rfl | h1, h2⟩
        · exact Or.inl rfl
        · by_cases hab : a = b
          · exact Or.inl hab
          · exact Or.inr ⟨h1, by simp [List.mem_cons, hab, h2]⟩

theorem nodup_uniqueFirstAux :
    ∀ (l seen : List α), (uniqueFirstAux l seen).Nodup := by
  intro l
  induction l with
  | nil => intro seen; simp [uniqueFirstAux]
  | cons b l ih =>
    intro seen
    by_cases hb : b ∈ seen
    · simpa [uniqueFirstAux, if_pos hb] using ih seen
    · rw [uniqueFirstAux, if_neg hb]
      refine List.Nodup.cons ?_ (ih (b :: seen))
      intro hmem
      rcases (mem_uniqueFirstAux).1 hmem with ⟨_, h2⟩
      exact h2 (List.mem_cons_self b seen)

theorem mem_uniqueFirst {a : α} {l : List α} : a ∈ uniqueFirst l ↔ a ∈ l := by
  unfold uniqueFirst
  rw [mem_uniqueFirstAux]
  simp

theorem nodup_uniqueFirst (l : List α) : (uniqueFirst l).Nodup :=
  nodup_uniqueFirstAux l []

/-- `uniqueFirstAux` only depends on the membership of its accumulator. -/
theorem uniqueFirstAux_congr :
    ∀ (l : List α) {s₁ s₂ : List α}, (∀ x, x ∈ s₁ ↔ x ∈ s₂) →
      uniqueFirstAux l s₁ = uniqueFirstAux l s₂ := by
  intro l
  induction l with
  | nil => intro s₁ s₂ _; rfl
  | cons a l ih =>
    intro s₁ s₂ h
    by_cases ha : a ∈ s₁
    · rw [uniqueFirstAux, if_pos ha, uniqueFirstAux, if_pos ((h a).1 ha), ih h]
    · rw [uniqueFirstAux, if_neg ha, uniqueFirstAux, if_neg (fun hc => ha ((h a).2 hc))]
      refine congrArg (a :: ·) (ih ?_)
      intro x; simp [List.mem_cons, h x]

theorem uniqueFirstAux_append :
    ∀ (l₁ l₂ seen : List α),
      uniqueFirstAux (l₁ ++ l₂) seen
        = uniqueFirstAux l₁ seen ++ uniqueFirstAux l₂ (l₁ ++ seen) := by
  intro l₁
  induction l₁ with
  | nil => intro l₂ seen; rfl
  | cons a l₁ ih =>
    intro l₂ seen
    by_cases ha : a ∈ seen
    · rw [List.cons_append, uniqueFirstAux, if_pos ha, uniqueFirstAux, if_pos ha, ih]
      refine congrArg _ (uniqueFirstAux_congr l₂ ?_)
      intro x
      simp only [List.mem_append, List.mem_cons]
      constructor
      · rintro (h | h)
        · exact Or.inl (Or.inr h)
        · exact Or.inr h
      · rintro (hl | h)
        · rcases hl with rfl | h
          · exact Or.inr ha
          · exact Or.inl h
        · exact Or.inr h
    · rw [List.cons_append, uniqueFirstAux, if_neg ha, uniqueFirstAux, if_neg ha, ih,
        List.cons_append]
      refine congrArg (a :: ·) (congrArg _ (uniqueFirstAux_congr l₂ ?_))
      intro x
      simp only [List.mem_append, List.mem_cons]
      tauto

end UniqueFirst

section PosOf

variable {α : Type} [DecidableEq α]

theorem posOf_eq_none {a : α} : ∀ {l : List α}, posOf l a = none ↔ a ∉ l := by
  intro l
  induction l with
  | nil => simp [posOf]
  | cons b l ih =>
    by_cases hb : b = a
    · subst hb; simp [posOf]
    · simp [posOf, if_neg hb, ih, Ne.symm hb]

theorem posOf_isSome_of_mem {a : α} {l : List α} (h : a ∈ l) :
    ∃ p, posOf l a = some p := by
  cases hp : posOf l a with
  | none => exact absurd h (posOf_eq_none.1 hp)
  | some p => exact ⟨p, rfl⟩

theorem posOf_append_left {a : α} :
    ∀ {l₁ : List α} (l₂ : List α), a ∈ l₁ → posOf (l₁ ++ l₂) a = posOf l₁ a := by
  intro l₁
  induction l₁ with
  | nil => intro l₂ h; exact absurd h (List.not_mem_nil a)
  | cons b l ih =>
    intro l₂ h
    by_cases hb : b = a
    · simp [posOf, if_pos hb]
    · rcases List.mem_cons.1 h with rfl | h
      · exact absurd rfl hb
      · simp [posOf, if_neg hb, ih l₂ h]

theorem posOf_append_right {a : α} :
    ∀ {l₁ : List α} (l₂ : List α), a ∉ l₁ →
      posOf (l₁ ++ l₂) a = (posOf l₂ a).map (· + l₁.length) := by
  intro l₁
  induction l₁ with
  | nil =>
    intro l₂ _
    rw [List.nil_append]
    cases posOf l₂ a with
    | none => rfl
    | some q => rfl
  | cons b l ih =>
    intro l₂ h
    have hb : b ≠ a := fun hc => h (List.mem_cons.2 (Or.inl hc.symm))
    have ha : a ∉ l := fun hc => h (List.mem_cons.2 (Or.inr hc))
    rw [List.cons_append]
    show (if b = a then some 0 else (posOf (l ++ l₂) a).map (· + 1)) = _
    rw [if_neg hb, ih l₂ ha]
    cases posOf l₂ a with
    | none => rfl
    | some q =>
      show some (q + l.length + 1) = some (q + (l.length + 1))
      rw [Nat.add_assoc]

theorem posOf_of_getElem? {i : α} :
    ∀ {l : List α} {p : Nat}, l.Nodup → l[p]? = some i → posOf l i = some p := by
  intro l
  induction l with
  | nil => intro p _ h; simp at h
  | cons b l ih =>
    intro p hnd h
    cases p with
    | zero =>
      simp only [List.getElem?_cons_zero, Option.some.injEq] at h
      subst h
      simp [posOf]
    | succ q =>
      simp only [List.getElem?_cons_succ] at h
      have hmem : i ∈ l := List.getElem?_mem h
      have hb : b ≠ i := by
        rintro rfl
        exact (List.nodup_cons.1 hnd).1 hmem
      simp [posOf, if_neg hb, ih (List.nodup_cons.1 hnd).2 h]

end PosOf

section StableSort

variable {α : Type} (key : α → Int)

theorem insertAsc_perm (a : α) : ∀ l : List α, (insertAsc key a l).Perm (a :: l) := by
  intro l
  induction l with
  | nil => simp [insertAsc]
  | cons b l ih =>
    by_cases h : key b < key a
    · rw [insertAsc, if_pos h]
      exact ((ih.cons b).trans (List.Perm.swap a b l))
    · rw [insertAsc, if_neg h]

theorem insSortBy_perm : ∀ l : List α, (insSortBy key l).Perm l := by
  intro l
  induction l with
  | nil => simp [insSortBy]
  | cons a l ih =>
    exact (insertAsc_perm key a (insSortBy key l)).trans (ih.cons a)

theorem mem_insertAsc {x a : α} {l : List α} :
    x ∈ insertAsc key a l ↔ x = a ∨ x ∈ l := by
  rw [(insertAsc_perm key a l).mem_iff, List.mem_cons]

theorem mem_insSortBy {x : α} {l : List α} : x ∈ insSortBy key l ↔ x ∈ l :=
  (insSortBy_perm key l).mem_iff

theorem insertAsc_pairwise {a : α} :
    ∀ {l : List α}, l.Pairwise (fun x y => key x ≤ key y) →
      (insertAsc key a l).Pairwise (fun x y => key x ≤ key y) := by
  intro l
  induction l with
  | nil => intro _; simp [insertAsc]
  | cons b l ih =>
    intro hp
    rcases List.pairwise_cons.1 hp with ⟨hb, hl⟩
    by_cases h : key b < key a
    · rw [insertAsc, if_pos h]
      refine List.pairwise_cons.2 ⟨?_, ih hl⟩
      intro x hx
      rcases (mem_insertAsc key).1 hx with rfl | hx
      · exact le_of_lt h
      · exact hb x hx
    · rw [insertAsc, if_neg h]
      refine List.pairwise_cons.2 ⟨?_, hp⟩
      intro x hx
      rcases List.mem_cons.1 hx with rfl | hx
      · exact le_of_not_lt h
      · exact le_trans (le_of_not_lt h) (hb x hx)

theorem insSortBy_pairwise :
    ∀ l : List α, (insSortBy key l).Pairwise (fun x y => key x ≤ key y) := by
  intro l
  induction l with
  | nil => simp [insSortBy]
  | cons a l ih => exact insertAsc_pairwise key ih

theorem insertAsc_filter_key (a : α) (v : Int) :
    ∀ l : List α,
      (insertAsc key a l).filter (fun x => key x = v)
        = if key a = v then a :: l.filter (fun x => key x = v)
          else l.filter (fun x => key x = v) := by
  have hfc : ∀ (x : α) (xs : List α),
      (x :: xs).filter (fun y => key y = v)
        = if key x = v then x :: xs.filter (fun y => key y = v)
          else xs.filter (fun y => key y = v) := by
    intro x xs
    by_cases h : key x = v <;> simp [List.filter_cons, h]
  intro l
  induction l with
  | nil => rw [insertAsc, hfc a []]
  | cons b l ih =>
    by_cases h : key b < key a
    · rw [insertAsc, if_pos h, hfc b, ih, hfc b]
      by_cases hb : key b = v
      · have ha : ¬ key a = v := by
          intro hc
          rw [hb, hc] at h
          exact lt_irrefl v h
        simp [hb, ha]
      · simp [hb]
    · rw [insertAsc, if_neg h, hfc a]

theorem insSortBy_filter_key (v : Int) :
    ∀ l : List α,
      (insSortBy key l).filter (fun x => key x = v) = l.filter (fun x => key x = v) := by
  intro l
  induction l with
  | nil => rfl
  | cons a l ih =>
    rw [insSortBy, insertAsc_filter_key key a v, ih]
    by_cases ha : key a = v
    · simp [ha, List.filter_cons]
    · simp [ha, List.filter_cons]

end StableSort

section SanitizeLemmas

theorem foldl_removeChar_data :
    ∀ (cs : List Char) (s : String),
      (cs.foldl removeChar s).data = s.data.filter (fun c => c ∉ cs) := by
  intro cs
  induction cs with
  | nil => intro s; simp
  | cons c cs ih =>
    intro s
    rw [List.foldl_cons, ih]
    have hd : (removeChar s c).data = s.data.filter (fun x => x ≠ c) := rfl
    rw [hd, List.filter_filter]
    refine List.filter_congr ?_
    intro x _
    by_cases h1 : x = c <;> by_cases h2 : x ∈ cs <;> simp [h1, h2]

theorem sanitize_field_data (s : String) :
    (sanitize_field s).data = s.data.filter (fun c => c ∉ invalid_chars) :=
  foldl_removeChar_data invalid_chars s

end SanitizeLemmas

section RowLemmas

@[simp] theorem withPanelGeom_module (r : Row) (x y w h : Nat) :
    (withPanelGeom r x y w h).module = r.module := rfl
@[simp] theorem withPanelGeom_dashboard (r : Row) (x y w h : Nat) :
    (withPanelGeom r x y w h).dashboard = r.dashboard := rfl
@[simp] theorem withPanelGeom_objectName (r : Row) (x y w h : Nat) :
    (withPanelGeom r x y w h).objectName = r.objectName := rfl
@[simp] theorem withPanelGeom_objectType (r : Row) (x y w h : Nat) :
    (withPanelGeom r x y w h).objectType = r.objectType := rfl
@[simp] theorem withPanelGeom_viewType (r : Row) (x y w h : Nat) :
    (withPanelGeom r x y w h).viewType = r.viewType := rfl
@[simp] theorem withPanelGeom_field (r : Row) (x y w h : Nat) :
    (withPanelGeom r x y w h).field = r.field := rfl
@[simp] theorem withPanelGeom_elementId (r : Row) (x y w h : Nat) :
    (withPanelGeom r x y w h).elementId = r.elementId := rfl
@[simp] theorem withPanelGeom_posX1 (r : Row) (x y w h : Nat) :
    (withPanelGeom r x y w h).posX1 = r.posX1 := rfl
@[simp] theorem withPanelGeom_posY1 (r : Row) (x y w h : Nat) :
    (withPanelGeom r x y w h).posY1 = r.posY1 := rfl
@[simp] theorem withPanelGeom_width1 (r : Row) (x y w h : Nat) :
    (withPanelGeom r x y w h).width1 = r.width1 := rfl
@[simp] theorem withPanelGeom_height1 (r : Row) (x y w h : Nat) :
    (withPanelGeom r x y w h).height1 = r.height1 := rfl
@[simp] theorem withPanelGeom_attrs (r : Row) (x y w h : Nat) :
    (withPanelGeom r x y w h).attrs = r.attrs := rfl
@[simp] theorem withPanelGeom_posX (r : Row) (x y w h : Nat) :
    (withPanelGeom r x y w h).posX = x := rfl
@[simp] theorem withPanelGeom_posY (r : Row) (x y w h : Nat) :
    (withPanelGeom r x y w h).posY = y := rfl
@[simp] theorem withPanelGeom_width (r : Row) (x y w h : Nat) :
    (withPanelGeom r x y w h).width = w := rfl
@[simp] theorem withPanelGeom_height (r : Row) (x y w h : Nat) :
    (withPanelGeom r x y w h).height = h := rfl

@[simp] theorem applyPanelLookup_module (r : Row) (o : Option (Nat × Nat × Nat × Nat)) :
    (applyPanelLookup r o).module = r.module := by
  rcases o with _ | ⟨x, y, w, h⟩ <;> rfl
@[simp] theorem applyPanelLookup_dashboard (r : Row) (o : Option (Nat × Nat × Nat × Nat)) :
    (applyPanelLookup r o).dashboard = r.dashboard := by
  rcases o with _ | ⟨x, y, w, h⟩ <;> rfl
@[simp] theorem applyPanelLookup_objectName (r : Row) (o : Option (Nat × Nat × Nat × Nat)) :
    (applyPanelLookup r o).objectName = r.objectName := by
  rcases o with _ | ⟨x, y, w, h⟩ <;> rfl
@[simp] theorem applyPanelLookup_objectType (r : Row) (o : Option (Nat × Nat × Nat × Nat)) :
    (applyPanelLookup r o).objectType = r.objectType := by
  rcases o with _ | ⟨x, y, w, h⟩ <;> rfl
@[simp] theorem applyPanelLookup_viewType (r : Row) (o : Option (Nat × Nat × Nat × Nat)) :
    (applyPanelLookup r o).viewType = r.viewType := by
  rcases o with _ | ⟨x, y, w, h⟩ <;> rfl
@[simp] theorem applyPanelLookup_field (r : Row) (o : Option (Nat × Nat × Nat × Nat)) :
    (applyPanelLookup r o).field = r.field := by
  rcases o with _ | ⟨x, y, w, h⟩ <;> rfl
@[simp] theorem applyPanelLookup_elementId (r : Row) (o : Option (Nat × Nat × Nat × Nat)) :
    (applyPanelLookup r o).elementId = r.elementId := by
  rcases o with _ | ⟨x, y, w, h⟩ <;> rfl
@[simp] theorem applyPanelLookup_posX1 (r : Row) (o : Option (Nat × Nat × Nat × Nat)) :
    (applyPanelLookup r o).posX1 = r.posX1 := by
  rcases o with _ | ⟨x, y, w, h⟩ <;> rfl
@[simp] theorem applyPanelLookup_posY1 (r : Row) (o : Option (Nat × Nat × Nat × Nat)) :
    (applyPanelLookup r o).posY1 = r.posY1 := by
  rcases o with _ | ⟨x, y, w, h⟩ <;> rfl
@[simp] theorem applyPanelLookup_width1 (r : Row) (o : Option (Nat × Nat × Nat × Nat)) :
    (applyPanelLookup r o).width1 = r.width1 := by
  rcases o with _ | ⟨x, y, w, h⟩ <;> rfl
@[simp] theorem applyPanelLookup_height1 (r : Row) (o : Option (Nat × Nat × Nat × Nat)) :
    (applyPanelLookup r o).height1 = r.height1 := by
  rcases o with _ | ⟨x, y, w, h⟩ <;> rfl
@[simp] theorem applyPanelLookup_attrs (r : Row) (o : Option (Nat × Nat × Nat × Nat)) :
    (applyPanelLookup r o).attrs = r.attrs := by
  rcases o with _ | ⟨x, y, w, h⟩ <;> rfl

@[simp] theorem panelImplUpd_module (df : List Row) (r : Row) :
    (panelImplUpd df r).module = r.module := by
  unfold panelImplUpd; simp
@[simp] theorem panelImplUpd_dashboard (df : List Row) (r : Row) :
    (panelImplUpd df r).dashboard = r.dashboard := by
  unfold panelImplUpd; simp

@[simp] theorem applyFieldGeom_module (r : Row) (p cc : Nat) :
    (applyFieldGeom r p cc).module = r.module := by
  unfold applyFieldGeom; cases r.field <;> rfl
@[simp] theorem applyFieldGeom_dashboard (r : Row) (p cc : Nat) :
    (applyFieldGeom r p cc).dashboard = r.dashboard := by
  unfold applyFieldGeom; cases r.field <;> rfl
@[simp] theorem applyFieldGeom_objectName (r : Row) (p cc : Nat) :
    (applyFieldGeom r p cc).objectName = r.objectName := by
  unfold applyFieldGeom; cases r.field <;> rfl
@[simp] theorem applyFieldGeom_objectType (r : Row) (p cc : Nat) :
    (applyFieldGeom r p cc).objectType = r.objectType := by
  unfold applyFieldGeom; cases r.field <;> rfl
@[simp] theorem applyFieldGeom_viewType (r : Row) (p cc : Nat) :
    (applyFieldGeom r p cc).viewType = r.viewType := by
  unfold applyFieldGeom; cases r.field <;> rfl
@[simp] theorem applyFieldGeom_field (r : Row) (p cc : Nat) :
    (applyFieldGeom r p cc).field = r.field := by
  unfold applyFieldGeom; cases r.field <;> rfl
@[simp] theorem applyFieldGeom_elementId (r : Row) (p cc : Nat) :
    (applyFieldGeom r p cc).elementId = r.elementId := by
  unfold applyFieldGeom; cases r.field <;> rfl
@[simp] theorem applyFieldGeom_posX (r : Row) (p cc : Nat) :
    (applyFieldGeom r p cc).posX = r.posX := by
  unfold applyFieldGeom; cases r.field <;> rfl
@[simp] theorem applyFieldGeom_posY (r : Row) (p cc : Nat) :
    (applyFieldGeom r p cc).posY = r.posY := by
  unfold applyFieldGeom; cases r.field <;> rfl
@[simp] theorem applyFieldGeom_width (r : Row) (p cc : Nat) :
    (applyFieldGeom r p cc).width = r.width := by
  unfold applyFieldGeom; cases r.field <;> rfl
@[simp] theorem applyFieldGeom_height (r : Row) (p cc : Nat) :
    (applyFieldGeom r p cc).height = r.height := by
  unfold applyFieldGeom; cases r.field <;> rfl
@[simp] theorem applyFieldGeom_attrs (r : Row) (p cc : Nat) :
    (applyFieldGeom r p cc).attrs = r.attrs := by
  unfold applyFieldGeom; cases r.field <;> rfl
@[simp] theorem applyFieldGeom_posX1 (r : Row) (p cc : Nat) :
    (applyFieldGeom r p cc).posX1 = INITIAL_X + p % cc * HORIZONTAL_STEP := by
  unfold applyFieldGeom; cases r.field <;> rfl
@[simp] theorem applyFieldGeom_posY1 (r : Row) (p cc : Nat) :
    (applyFieldGeom r p cc).posY1 = INITIAL_Y + p / cc * VERTICAL_STEP := by
  unfold applyFieldGeom; cases r.field <;> rfl

theorem applyFieldGeom_width1_some {r : Row} {n : String} (h : r.field = some n) (p cc : Nat) :
    (applyFieldGeom r p cc).width1 = (fieldSize n).1 := by
  unfold applyFieldGeom; rw [h]
theorem applyFieldGeom_height1_some {r : Row} {n : String} (h : r.field = some n) (p cc : Nat) :
    (applyFieldGeom r p cc).height1 = (fieldSize n).2 := by
  unfold applyFieldGeom; rw [h]
theorem applyFieldGeom_width1_none {r : Row} (h : r.field = none) (p cc : Nat) :
    (applyFieldGeom r p cc).width1 = r.width1 := by
  unfold applyFieldGeom; rw [h]
theorem applyFieldGeom_height1_none {r : Row} (h : r.field = none) (p cc : Nat) :
    (applyFieldGeom r p cc).height1 = r.height1 := by
  unfold applyFieldGeom; rw [h]

@[simp] theorem applyPosLookup_module (r : Row) (cc : Nat) (o : Option Nat) :
    (applyPosLookup r cc o).module = r.module := by cases o <;> simp [applyPosLookup]
@[simp] theorem applyPosLookup_dashboard (r : Row) (cc : Nat) (o : Option Nat) :
    (applyPosLookup r cc o).dashboard = r.dashboard := by cases o <;> simp [applyPosLookup]
@[simp] theorem applyPosLookup_objectName (r : Row) (cc : Nat) (o : Option Nat) :
    (applyPosLookup r cc o).objectName = r.objectName := by cases o <;> simp [applyPosLookup]
@[simp] theorem applyPosLookup_objectType (r : Row) (cc : Nat) (o : Option Nat) :
    (applyPosLookup r cc o).objectType = r.objectType := by cases o <;> simp [applyPosLookup]
@[simp] theorem applyPosLookup_viewType (r : Row) (cc : Nat) (o : Option Nat) :
    (applyPosLookup r cc o).viewType = r.viewType := by cases o <;> simp [applyPosLookup]
@[simp] theorem applyPosLookup_field (r : Row) (cc : Nat) (o : Option Nat) :
    (applyPosLookup r cc o).field = r.field := by cases o <;> simp [applyPosLookup]
@[simp] theorem applyPosLookup_elementId (r : Row) (cc : Nat) (o : Option Nat) :
    (applyPosLookup r cc o).elementId = r.elementId := by cases o <;> simp [applyPosLookup]
@[simp] theorem applyPosLookup_posX (r : Row) (cc : Nat) (o : Option Nat) :
    (applyPosLookup r cc o).posX = r.posX := by cases o <;> simp [applyPosLookup]
@[simp] theorem applyPosLookup_posY (r : Row) (cc : Nat) (o : Option Nat) :
    (applyPosLookup r cc o).posY = r.posY := by cases o <;> simp [applyPosLookup]
@[simp] theorem applyPosLookup_width (r : Row) (cc : Nat) (o : Option Nat) :
    (applyPosLookup r cc o).width = r.width := by cases o <;> simp [applyPosLookup]
@[simp] theorem applyPosLookup_height (r : Row) (cc : Nat) (o : Option Nat) :
    (applyPosLookup r cc o).height = r.height := by cases o <;> simp [applyPosLookup]
@[simp] theorem applyPosLookup_attrs (r : Row) (cc : Nat) (o : Option Nat) :
    (applyPosLookup r cc o).attrs = r.attrs := by cases o <;> simp [applyPosLookup]

@[simp] theorem fieldRowUpd_module (df : List Row) (i : Nat) :
    (fieldRowUpd df i).module = (df.getD i default).module := by
  unfold fieldRowUpd; simp
@[simp] theorem fieldRowUpd_dashboard (df : List Row) (i : Nat) :
    (fieldRowUpd df i).dashboard = (df.getD i default).dashboard := by
  unfold fieldRowUpd; simp
@[simp] theorem fieldRowUpd_field (df : List Row) (i : Nat) :
    (fieldRowUpd df i).field = (df.getD i default).field := by
  unfold fieldRowUpd; simp

end RowLemmas

section PanelLemmas

theorem contains_map_iff_any (g : List Row) (f : Row → String) (a : String) :
    ((g.map f).contains a = true) ↔ (g.any (fun r => f r = a) = true) := by
  rw [List.any_eq_true]
  constructor
  · intro h
    rcases List.mem_map.1 (List.elem_iff.1 h) with ⟨r, hr, he⟩
    exact ⟨r, hr, by simp [he]⟩
  · rintro ⟨r, hr, he⟩
    refine List.elem_iff.2 (List.mem_map.2 ⟨r, hr, ?_⟩)
    simpa using he

theorem panelWidth_eq_spec (g : List Row) : panelWidth g = specPanelWidth g := by
  unfold panelWidth specPanelWidth
  by_cases hc : (g.map Row.objectType).contains "Report" = true
  · rw [if_pos hc, if_pos ((contains_map_iff_any g Row.objectType "Report").1 hc)]
  · rw [if_neg hc,
      if_neg (fun hh => hc ((contains_map_iff_any g Row.objectType "Report").2 hh))]

theorem panelHeight_eq_spec (g : List Row) : panelHeight g = specPanelHeight g := by
  unfold panelHeight specPanelHeight
  have hA : (if 8 < g.length then 14 + (g.length - 8 + 1) / 2 * 2 else 14)
      = 14 + (if 8 < g.length then 2 * ceilHalf (g.length - 8) else 0) := by
    by_cases hfc : 8 < g.length
    · rw [if_pos hfc, if_pos hfc, Nat.mul_comm ((g.length - 8 + 1) / 2) 2]
      rfl
    · rw [if_neg hfc, if_neg hfc]
  by_cases hc : (g.map Row.viewType).contains "Report Summary" = true
  · rw [if_pos hc, if_pos ((contains_map_iff_any g Row.viewType "Report Summary").1 hc), hA]
  · rw [if_neg hc,
      if_neg (fun hh => hc ((contains_map_iff_any g Row.viewType "Report Summary").2 hh)), hA,
      Nat.add_zero]

theorem placeMap_eq_spec (mrows : List Row) :
    ∀ (ds : List String) (cx cy mh : Nat),
      placeMap mrows ds cx cy mh = specPlaceMap mrows ds cx cy mh := by
  intro ds
  induction ds with
  | nil => intro cx cy mh; rfl
  | cons d ds ih =>
    intro cx cy mh
    simp only [placeMap, specPlaceMap, panelWidth_eq_spec, panelHeight_eq_spec, ih]

theorem alookup_cons_self {κ ν : Type} [DecidableEq κ] (k : κ) (v : ν) (l : List (κ × ν)) :
    alookup k ((k, v) :: l) = some v := by
  simp [alookup]

theorem alookup_cons_ne {κ ν : Type} [DecidableEq κ] {a k : κ} (h : a ≠ k) (v : ν)
    (l : List (κ × ν)) : alookup k ((a, v) :: l) = alookup k l := by
  simp [alookup, h]

theorem alookup_placeMap_not_mem {mrows : List Row} {d : String} :
    ∀ {ds : List String} (cx cy mh : Nat), d ∉ ds →
      alookup d (placeMap mrows ds cx cy mh) = none := by
  intro ds
  induction ds with
  | nil => intro cx cy mh _; rfl
  | cons e ds ih =>
    intro cx cy mh hd
    have hde : e ≠ d := fun hc => hd (List.mem_cons.2 (Or.inl hc.symm))
    have hdt : d ∉ ds := fun hc => hd (List.mem_cons.2 (Or.inr hc))
    simp only [placeMap]
    rw [alookup_cons_ne hde]
    split
    · exact ih _ _ _ hdt
    · exact ih _ _ _ hdt

theorem alookup_placeMap_mem {mrows : List Row} {d : String} :
    ∀ {ds : List String} (cx cy mh : Nat), d ∈ ds →
      ∃ g, alookup d (placeMap mrows ds cx cy mh) = some g := by
  intro ds
  induction ds with
  | nil => intro cx cy mh h; exact absurd h (List.not_mem_nil d)
  | cons e ds ih =>
    intro cx cy mh hd
    by_cases hde : e = d
    · subst hde
      simp only [placeMap]
      exact ⟨_, alookup_cons_self _ _ _⟩
    · have hdt : d ∈ ds := by
        rcases List.mem_cons.1 hd with rfl | h
        · exact absurd rfl hde
        · exact h
      simp only [placeMap]
      rw [alookup_cons_ne hde]
      split
      · exact ih _ _ _ hdt
      · exact ih _ _ _ hdt

theorem placeDashboards_eq (mrows : List Row) (m : String) :
    ∀ (ds : List String) (cx cy mh : Nat) (df : List Row), ds.Nodup →
      placeDashboards mrows m ds cx cy mh df
        = df.map (fun r =>
            if r.module = m then
              applyPanelLookup r (alookup r.dashboard (placeMap mrows ds cx cy mh))
            else r) := by
  intro ds
  induction ds with
  | nil =>
    intro cx cy mh df _
    simp [placeDashboards, placeMap, alookup, applyPanelLookup]
  | cons d ds ih =>
    intro cx cy mh df hnd
    rcases List.nodup_cons.1 hnd with ⟨hd, hnd'⟩
    simp only [placeDashboards, placeMap]
    have hstep : ∀ st1 st2 st3 : Nat,
        placeDashboards mrows m ds st1 st2 st3
            (updateGroupGeom df m d cx cy
              (panelWidth (mrows.filter (fun r => r.dashboard = d)))
              (panelHeight (mrows.filter (fun r => r.dashboard = d))))
          = df.map (fun r =>
              if r.module = m then
                applyPanelLookup r
                  (alookup r.dashboard
                    ((d, (cx, cy, panelWidth (mrows.filter (fun r => r.dashboard = d)),
                          panelHeight (mrows.filter (fun r => r.dashboard = d))))
                      :: placeMap mrows ds st1 st2 st3))
              else r) := by
      intro st1 st2 st3
      rw [ih st1 st2 st3 _ hnd', updateGroupGeom, List.map_map]
      refine List.map_congr_left ?_
      intro r _
      simp only [Function.comp]
      by_cases hm : r.module = m
      · by_cases hdd : r.dashboard = d
        · have hand : r.module = m ∧ r.dashboard = d := ⟨hm, hdd⟩
          rw [if_pos hand, withPanelGeom_module, withPanelGeom_dashboard, if_pos hm,
            if_pos hm, hdd, alookup_placeMap_not_mem _ _ _ hd, alookup_cons_self]
          rfl
        · have hand : ¬(r.module = m ∧ r.dashboard = d) := fun hc => hdd hc.2
          rw [if_neg hand, if_pos hm, if_pos hm,
            alookup_cons_ne (fun hc => hdd hc.symm)]
      · have hand : ¬(r.module = m ∧ r.dashboard = d) := fun hc => hm hc.1
        rw [if_neg hand, if_neg hm, if_neg hm]
    split
    · exact hstep _ _ _
    · exact hstep _ _ _

theorem panelStep_char (df : List Row) (P : String → Bool) (m : String) (hPm : P m = false) :
    panelStep (df.map (fun r => if P r.module then panelImplUpd df r else r)) m
      = df.map (fun r =>
          if P r.module || decide (r.module = m) then panelImplUpd df r else r) := by
  have hFmod : ∀ r : Row,
      ((if P r.module then panelImplUpd df r else r) : Row).module = r.module := by
    intro r
    by_cases h : P r.module = true
    · rw [if_pos h, panelImplUpd_module]
    · rw [if_neg h]
  have hfilter :
      (df.map (fun r => if P r.module then panelImplUpd df r else r)).filter
          (fun r => r.module = m) = mrowsOf df m := by
    rw [List.filter_map]
    have h1 : List.filter
          ((fun r : Row => decide (r.module = m))
            ∘ fun r => if P r.module then panelImplUpd df r else r) df
        = List.filter (fun r : Row => decide (r.module = m)) df := by
      refine List.filter_congr ?_
      intro r _
      simp only [Function.comp]
      rw [hFmod r]
    rw [h1]
    have h2 : ∀ r ∈ List.filter (fun r : Row => decide (r.module = m)) df,
        (if P r.module then panelImplUpd df r else r) = r := by
      intro r hr
      rcases List.mem_filter.1 hr with ⟨_, hmod⟩
      have hmod' : r.module = m := by simpa using hmod
      rw [hmod', hPm]
      simp
    rw [List.map_congr_left h2, List.map_id']
    rfl
  simp only [panelStep]
  rw [hfilter, placeDashboards_eq _ _ _ _ _ _ _ (nodup_uniqueFirst _), List.map_map]
  refine List.map_congr_left ?_
  intro r _
  simp only [Function.comp]
  by_cases hP : P r.module = true <;> by_cases hm2 : r.module = m
  · exfalso
    rw [hm2, hPm] at hP
    exact Bool.false_ne_true hP
  · rw [if_pos hP, panelImplUpd_module, if_neg hm2]
    have hc : (P r.module || decide (r.module = m)) = true := by simp [hP]
    rw [if_pos hc]
  · rw [if_neg hP, if_pos hm2]
    have hc : (P r.module || decide (r.module = m)) = true := by simp [hm2]
    rw [if_pos hc]
    simp only [panelImplUpd, hm2]
  · rw [if_neg hP, if_neg hm2]
    have hc : ¬ ((P r.module || decide (r.module = m)) = true) := by simp [hP, hm2]
    rw [if_neg hc]

theorem panels_fold (df : List Row) :
    ∀ (M : List String) (P : String → Bool), M.Nodup → (∀ m ∈ M, P m = false) →
      M.foldl panelStep (df.map (fun r => if P r.module then panelImplUpd df r else r))
        = df.map (fun r =>
            if P r.module || decide (r.module ∈ M) then panelImplUpd df r else r) := by
  intro M
  induction M with
  | nil =>
    intro P _ _
    simp
  | cons m M ih =>
    intro P hnd hP
    rcases List.nodup_cons.1 hnd with ⟨hm0, hnd'⟩
    have hPm : P m = false := hP m (List.mem_cons_self m M)
    rw [List.foldl_cons, panelStep_char df P m hPm]
    have hP' : ∀ m' ∈ M, (fun x => P x || decide (x = m)) m' = false := by
      intro m' hm'
      have hne : m' ≠ m := fun hc => hm0 (hc ▸ hm')
      simp [hP m' (List.mem_cons_of_mem m hm'), hne]
    refine (ih (fun x => P x || decide (x = m)) hnd' hP').trans ?_
    refine List.map_congr_left ?_
    intro r _
    have hb : ((P r.module || decide (r.module = m)) || decide (r.module ∈ M))
        = (P r.module || decide (r.module ∈ m :: M)) := by
      by_cases h1 : r.module = m <;> by_cases h2 : r.module ∈ M <;>
        simp [h1, h2, List.mem_cons]
    rw [hb]

theorem panels_char (df : List Row) :
    position_dashboard_panels_by_module df = df.map (panelImplUpd df) := by
  have h0 : df.map (fun r => if (fun _ : String => false) r.module
      then panelImplUpd df r else r) = df := by
    simp
  refine Eq.trans ?_ (Eq.trans
    (panels_fold df (uniqueFirst (df.map Row.module)) (fun _ => false)
      (nodup_uniqueFirst _) (fun _ _ => rfl)) ?_)
  · rw [position_dashboard_panels_by_module, h0]
  · refine List.map_congr_left ?_
    intro r hr
    have hmem : r.module ∈ uniqueFirst (df.map Row.module) :=
      mem_uniqueFirst.2 (List.mem_map_of_mem Row.module hr)
    simp [hmem]

end PanelLemmas

section FieldLemmas

theorem length_eq_of_getElem?_map {β : Type} {l₁ l₂ : List β} {F : Nat → β → β}
    (h : ∀ i, l₁[i]? = (l₂[i]?).map (F i)) : l₁.length = l₂.length := by
  refine Nat.le_antisymm ?_ ?_
  · have h2 : l₂[l₂.length]? = none := List.getElem?_eq_none (Nat.le_refl _)
    have h1 : l₁[l₂.length]? = none := by rw [h, h2]; rfl
    exact List.getElem?_eq_none_iff.1 h1
  · have h1 : l₁[l₁.length]? = none := List.getElem?_eq_none (Nat.le_refl _)
    have h2 : l₂[l₁.length]? = none := by
      rcases ho : l₂[l₁.length]? with _ | r
      · rfl
      · exfalso
        have hh := h l₁.length
        rw [ho, h1] at hh
        exact Option.noConfusion hh
    exact List.getElem?_eq_none_iff.1 h2

theorem setFieldGeom_getElem?_ne (acc : List Row) {i j : Nat} (h : j ≠ i) (p cc : Nat) :
    (setFieldGeom acc j p cc)[i]? = acc[i]? := by
  cases hj : acc[j]? with
  | none => simp [setFieldGeom, hj]
  | some r => simp [setFieldGeom, hj, List.getElem?_set_ne h]

theorem enumFold_get (cc : Nat) :
    ∀ (l : List Nat) (n : Nat) (acc : List Row) (i : Nat), l.Nodup →
      ((List.enumFrom n l).foldl (fun a pi => setFieldGeom a pi.2 pi.1 cc) acc)[i]?
        = (acc[i]?).map
            (fun r => applyPosLookup r cc ((posOf l i).map (fun q => n + q))) := by
  intro l
  induction l with
  | nil =>
    intro n acc i _
    show acc[i]? = _
    cases acc[i]? <;> rfl
  | cons j l ih =>
    intro n acc i hnd
    rcases List.nodup_cons.1 hnd with ⟨hj, hnd'⟩
    rw [List.enumFrom_cons, List.foldl_cons, ih (n + 1) _ i hnd']
    by_cases hij : i = j
    · subst hij
      have hpl : posOf l i = none := posOf_eq_none.2 hj
      have hpc : posOf (i :: l) i = some 0 := by simp [posOf]
      rw [hpl, hpc]
      cases hai : acc[i]? with
      | none =>
        have hnop : setFieldGeom acc i n cc = acc := by simp [setFieldGeom, hai]
        rw [hnop, hai]
        rfl
      | some r =>
        have hlt : i < acc.length := (List.getElem?_eq_some.1 hai).1
        have hset : (setFieldGeom acc i n cc)[i]? = some (applyFieldGeom r n cc) := by
          simp [setFieldGeom, hai, List.getElem?_set_self hlt]
        rw [hset]
        simp [applyPosLookup]
    · have hjne : j ≠ i := fun hc => hij hc.symm
      rw [setFieldGeom_getElem?_ne _ hjne _ _]
      have hpc : posOf (j :: l) i = (posOf l i).map (fun q => q + 1) := by
        simp [posOf, hjne]
      rw [hpc]
      cases hpl : posOf l i with
      | none => rfl
      | some q =>
        simp only [Option.map_some']
        rw [show n + 1 + q = n + (q + 1) by omega]

theorem fieldStep_get (acc : List Row) (d : String) (i : Nat) :
    (fieldStep acc d)[i]?
      = (acc[i]?).map (fun r =>
          applyPosLookup r (columnCountOf (dashIdxs acc d).length)
            (posOf (insSortBy (priKey acc) (dashIdxs acc d)) i)) := by
  have hnd : (insSortBy (priKey acc) (dashIdxs acc d)).Nodup :=
    ((insSortBy_perm _ _).nodup_iff).2 (List.Nodup.filter _ (List.nodup_range _))
  simp only [fieldStep]
  rw [show (insSortBy (priKey acc) (dashIdxs acc d)).enum
      = List.enumFrom 0 (insSortBy (priKey acc) (dashIdxs acc d)) from rfl]
  rw [enumFold_get _ _ _ _ _ hnd]
  cases hop : posOf (insSortBy (priKey acc) (dashIdxs acc d)) i with
  | none => rfl
  | some q =>
    simp only [Option.map_some']
    rw [Nat.zero_add]

theorem getD_of_getElem? {β : Type} [Inhabited β] {l : List β} {j : Nat} {r : β}
    (h : l[j]? = some r) : l.getD j default = r := by
  rw [List.getD_eq_getElem?_getD, h]
  rfl

theorem fields_fold (df : List Row) :
    ∀ (D : List String) (acc : List Row) (P : String → Bool), D.Nodup →
      (∀ d ∈ D, P d = false) →
      (∀ j : Nat, acc[j]? = (df[j]?).map (fun r =>
          if P r.dashboard then fieldRowUpd df j else r)) →
      ∀ i : Nat, (D.foldl fieldStep acc)[i]?
        = (df[i]?).map (fun r =>
            if P r.dashboard || decide (r.dashboard ∈ D) then fieldRowUpd df i else r) := by
  intro D
  induction D with
  | nil =>
    intro acc P _ _ hinv i
    rw [List.foldl_nil, hinv i]
    cases df[i]? with
    | none => rfl
    | some r => simp [List.not_mem_nil]
  | cons d D ih =>
    intro acc P hnd hP hinv i
    rcases List.nodup_cons.1 hnd with ⟨hd0, hnd'⟩
    have hPd : P d = false := hP d (List.mem_cons_self d D)
    have hlen : acc.length = df.length := length_eq_of_getElem?_map hinv
    have hdash : ∀ j : Nat, (acc.getD j default).dashboard = (df.getD j default).dashboard := by
      intro j
      rw [List.getD_eq_getElem?_getD, List.getD_eq_getElem?_getD, hinv j]
      cases hdj : df[j]? with
      | none => rfl
      | some r =>
        simp only [Option.map_some', Option.getD_some]
        by_cases h : P r.dashboard = true
        · rw [if_pos h, fieldRowUpd_dashboard, getD_of_getElem? hdj]
        · rw [if_neg h]
    have hfield : ∀ j : Nat, (acc.getD j default).field = (df.getD j default).field := by
      intro j
      rw [List.getD_eq_getElem?_getD, List.getD_eq_getElem?_getD, hinv j]
      cases hdj : df[j]? with
      | none => rfl
      | some r =>
        simp only [Option.map_some', Option.getD_some]
        by_cases h : P r.dashboard = true
        · rw [if_pos h, fieldRowUpd_field, getD_of_getElem? hdj]
        · rw [if_neg h]
    have hdashIdxs : ∀ d' : String, dashIdxs acc d' = dashIdxs df d' := by
      intro d'
      unfold dashIdxs
      rw [hlen]
      refine List.filter_congr ?_
      intro j _
      rw [hdash j]
    have hpri : priKey acc = priKey df := by
      funext j
      unfold priKey
      rw [hfield j]
    rw [List.foldl_cons]
    refine (ih (fieldStep acc d) (fun x => P x || decide (x = d)) hnd' ?_ ?_ i).trans ?_
    · intro d' hd'
      have hne : d' ≠ d := fun hc => hd0 (hc ▸ hd')
      simp [hP d' (List.mem_cons_of_mem d hd'), hne]
    · intro j
      rw [fieldStep_get, hinv j, hdashIdxs d, hpri]
      cases hdj : df[j]? with
      | none => rfl
      | some r =>
        simp only [Option.map_some']
        have hgetD : df.getD j default = r := getD_of_getElem? hdj
        by_cases hrd : r.dashboard = d
        · have hjlen : j < df.length := (List.getElem?_eq_some.1 hdj).1
          have hmemIdx : j ∈ dashIdxs df d := by
            unfold dashIdxs
            refine List.mem_filter.2 ⟨List.mem_range.2 hjlen, ?_⟩
            simp [List.getD_eq_getElem?_getD, hdj, hrd]
          have hmemSort : j ∈ insSortBy (priKey df) (dashIdxs df d) :=
            (mem_insSortBy _).2 hmemIdx
          rcases posOf_isSome_of_mem hmemSort with ⟨p, hp⟩
          simp [hp, hrd, hPd, hdj, fieldRowUpd, sortIdx]
        · have hnmem : posOf (insSortBy (priKey df) (dashIdxs df d)) j = none := by
            refine posOf_eq_none.2 ?_
            intro hmem
            have hidx := (mem_insSortBy (priKey df)).1 hmem
            unfold dashIdxs at hidx
            rcases List.mem_filter.1 hidx with ⟨_, hcond⟩
            rw [hgetD] at hcond
            simp [hrd] at hcond
          rw [hnmem]
          simp only [applyPosLookup]
          have hb : (P r.dashboard || decide (r.dashboard = d)) = P r.dashboard := by
            simp [hrd]
          simp only [hb]
    · cases df[i]? with
      | none => rfl
      | some r =>
        simp only [Option.map_some']
        have hb : ((P r.dashboard || decide (r.dashboard = d)) || decide (r.dashboard ∈ D))
            = (P r.dashboard || decide (r.dashboard ∈ d :: D)) := by
          by_cases h1 : r.dashboard = d <;> by_cases h2 : r.dashboard ∈ D <;>
            simp [h1, h2, List.mem_cons]
        simp only [hb]

theorem fields_char (df : List Row) (i : Nat) :
    (position_dashboard_fields df)[i]? = (df[i]?).map (fun _ => fieldRowUpd df i) := by
  have h0 : ∀ j : Nat, df[j]? = (df[j]?).map (fun r =>
      if (fun _ : String => false) r.dashboard then fieldRowUpd df j else r) := by
    intro j
    cases df[j]? <;> simp
  have h := fields_fold df (uniqueFirst (df.map Row.dashboard)) df (fun _ => false)
    (nodup_uniqueFirst _) (fun _ _ => rfl) h0 i
  rw [position_dashboard_fields, h]
  cases hdi : df[i]? with
  | none => rfl
  | some r =>
    have hmem : r.dashboard ∈ uniqueFirst (df.map Row.dashboard) :=
      mem_uniqueFirst.2 (List.mem_map_of_mem Row.dashboard (List.getElem?_mem hdi))
    simp [hmem]

end FieldLemmas

section AttrLemmas

@[simp] theorem attrsRowUpd_vtKey (df : List Row) (r : Row) :
    vtKey (attrsRowUpd df r) = vtKey r := rfl
@[simp] theorem attrsRowUpd_module (df : List Row) (r : Row) :
    (attrsRowUpd df r).module = r.module := rfl
@[simp] theorem attrsRowUpd_dashboard (df : List Row) (r : Row) :
    (attrsRowUpd df r).dashboard = r.dashboard := rfl
@[simp] theorem attrsRowUpd_posX (df : List Row) (r : Row) :
    (attrsRowUpd df r).posX = r.posX := rfl
@[simp] theorem attrsRowUpd_posY (df : List Row) (r : Row) :
    (attrsRowUpd df r).posY = r.posY := rfl
@[simp] theorem attrsRowUpd_width (df : List Row) (r : Row) :
    (attrsRowUpd df r).width = r.width := rfl
@[simp] theorem attrsRowUpd_height (df : List Row) (r : Row) :
    (attrsRowUpd df r).height = r.height := rfl

theorem attrStep_char (df : List Row) (P : String × String × String → Bool)
    (k : String × String × String) (hPk : P k = false) :
    attrStep (df.map (fun r => if P (vtKey r) then attrsRowUpd df r else r)) k
      = df.map (fun r =>
          if P (vtKey r) || decide (vtKey r = k) then attrsRowUpd df r else r) := by
  have hFkey : ∀ r : Row,
      vtKey ((if P (vtKey r) then attrsRowUpd df r else r) : Row) = vtKey r := by
    intro r
    by_cases h : P (vtKey r) = true
    · rw [if_pos h, attrsRowUpd_vtKey]
    · rw [if_neg h]
  have hfilter :
      (df.map (fun r => if P (vtKey r) then attrsRowUpd df r else r)).filter
          (fun r => vtKey r = k)
        = df.filter (fun r => vtKey r = k) := by
    rw [List.filter_map]
    have h1 : List.filter
          ((fun r : Row => decide (vtKey r = k))
            ∘ fun r => if P (vtKey r) then attrsRowUpd df r else r) df
        = List.filter (fun r : Row => decide (vtKey r = k)) df := by
      refine List.filter_congr ?_
      intro r _
      simp only [Function.comp]
      rw [hFkey r]
    rw [h1]
    have h2 : ∀ r ∈ List.filter (fun r : Row => decide (vtKey r = k)) df,
        (if P (vtKey r) then attrsRowUpd df r else r) = r := by
      intro r hr
      rcases List.mem_filter.1 hr with ⟨_, hkey⟩
      have hkey' : vtKey r = k := by simpa using hkey
      rw [hkey', hPk]
      simp
    rw [List.map_congr_left h2, List.map_id']
  simp only [attrStep]
  rw [hfilter, setGroupAttrs, List.map_map]
  refine List.map_congr_left ?_
  intro r _
  simp only [Function.comp]
  by_cases hP : P (vtKey r) = true <;> by_cases hk : vtKey r = k
  · exfalso
    rw [hk, hPk] at hP
    exact Bool.false_ne_true hP
  · rw [if_pos hP, attrsRowUpd_vtKey, if_neg hk]
    have hc : (P (vtKey r) || decide (vtKey r = k)) = true := by simp [hP]
    rw [if_pos hc]
  · rw [if_neg hP, if_pos hk]
    have hc : (P (vtKey r) || decide (vtKey r = k)) = true := by simp [hk]
    rw [if_pos hc]
    simp only [attrsRowUpd, hk]
  · rw [if_neg hP, if_neg hk]
    have hc : ¬ ((P (vtKey r) || decide (vtKey r = k)) = true) := by simp [hP, hk]
    rw [if_neg hc]

theorem attrs_fold (df : List Row) :
    ∀ (K : List (String × String × String)) (P : String × String × String → Bool),
      K.Nodup → (∀ k ∈ K, P k = false) →
      K.foldl attrStep (df.map (fun r => if P (vtKey r) then attrsRowUpd df r else r))
        = df.map (fun r =>
            if P (vtKey r) || decide (vtKey r ∈ K) then attrsRowUpd df r else r) := by
  intro K
  induction K with
  | nil =>
    intro P _ _
    simp
  | cons k K ih =>
    intro P hnd hP
    rcases List.nodup_cons.1 hnd with ⟨hk0, hnd'⟩
    have hPk : P k = false := hP k (List.mem_cons_self k K)
    rw [List.foldl_cons, attrStep_char df P k hPk]
    have hP' : ∀ k' ∈ K, (fun x => P x || decide (x = k)) k' = false := by
      intro k' hk'
      have hne : k' ≠ k := fun hc => hk0 (hc ▸ hk')
      simp [hP k' (List.mem_cons_of_mem k hk'), hne]
    refine (ih (fun x => P x || decide (x = k)) hnd' hP').trans ?_
    refine List.map_congr_left ?_
    intro r _
    have hb : ((P (vtKey r) || decide (vtKey r = k)) || decide (vtKey r ∈ K))
        = (P (vtKey r) || decide (vtKey r ∈ k :: K)) := by
      by_cases h1 : vtKey r = k <;> by_cases h2 : vtKey r ∈ K <;>
        simp [h1, h2, List.mem_cons]
    simp only [hb]

theorem attrs_char (df : List Row) :
    generate_view_type_attributes df = df.map (attrsRowUpd df) := by
  have h0 : df.map (fun r => if (fun _ : String × String × String => false) (vtKey r)
      then attrsRowUpd df r else r) = df := by
    simp
  refine Eq.trans ?_ (Eq.trans
    (attrs_fold df (uniqueFirst (df.map vtKey)) (fun _ => false)
      (nodup_uniqueFirst _) (fun _ _ => rfl)) ?_)
  · rw [generate_view_type_attributes, h0]
  · refine List.map_congr_left ?_
    intro r hr
    have hmem : vtKey r ∈ uniqueFirst (df.map vtKey) :=
      mem_uniqueFirst.2 (List.mem_map_of_mem vtKey hr)
    simp [hmem]

end AttrLemmas

section IdLemmas

theorem assignGo_ids :
    ∀ (rs : List Row) (seen : List String) (m : List (String × Nat)) (c : Nat),
      (∀ k : String, alookup k m = (posOf seen k).map (· + 1)) →
      c = seen.length + 1 →
      (assignGo rs m c).map Row.elementId
        = rs.map (fun r =>
            toString
              ((posOf (seen ++ uniqueFirstAux (rs.map rowKey) seen) (rowKey r)).getD 0 + 1)) := by
  intro rs
  induction rs with
  | nil => intro seen m c _ _; rfl
  | cons r rs ih =>
    intro seen m c hm hc
    cases hal : alookup (rowKey r) m with
    | some v =>
      have hps := hm (rowKey r)
      rw [hal] at hps
      cases hq : posOf seen (rowKey r) with
      | none =>
        rw [hq] at hps
        exact absurd hps (by simp)
      | some q =>
        rw [hq] at hps
        have hv : v = q + 1 := by simpa using hps
        have hmem : rowKey r ∈ seen := by
          by_contra hn
          rw [posOf_eq_none.2 hn] at hq
          exact Option.noConfusion hq
        have huf : uniqueFirstAux ((r :: rs).map rowKey) seen
            = uniqueFirstAux (rs.map rowKey) seen := by
          simp only [List.map_cons, uniqueFirstAux, if_pos hmem]
        rw [huf]
        simp only [assignGo, hal]
        rw [List.map_cons, List.map_cons]
        congr 1
        · rw [posOf_append_left _ hmem, hq]
          simp [hv]
        · exact ih seen m c hm hc
    | none =>
      have hps := hm (rowKey r)
      rw [hal] at hps
      have hq : posOf seen (rowKey r) = none := by
        cases hq0 : posOf seen (rowKey r) with
        | none => rfl
        | some q =>
          rw [hq0] at hps
          exact absurd hps (by simp)
      have hnmem : rowKey r ∉ seen := posOf_eq_none.1 hq
      have huf : uniqueFirstAux ((r :: rs).map rowKey) seen
          = rowKey r :: uniqueFirstAux (rs.map rowKey) (rowKey r :: seen) := by
        simp only [List.map_cons, uniqueFirstAux, if_neg hnmem]
      rw [huf]
      simp only [assignGo, hal]
      rw [List.map_cons, List.map_cons]
      congr 1
      · rw [posOf_append_right _ hnmem]
        have h0 : posOf
            (rowKey r :: uniqueFirstAux (rs.map rowKey) (rowKey r :: seen)) (rowKey r)
            = some 0 := by
          simp [posOf]
        rw [h0]
        simp [hc]
      · have hm' : ∀ k : String, alookup k ((rowKey r, c) :: m)
            = (posOf (seen ++ [rowKey r]) k).map (· + 1) := by
          intro k
          by_cases hk : rowKey r = k
          · subst hk
            rw [alookup_cons_self, posOf_append_right _ hnmem]
            simp [posOf, hc]
          · rw [alookup_cons_ne hk, hm k]
            by_cases hks : k ∈ seen
            · rw [posOf_append_left _ hks]
            · rw [posOf_append_right _ hks, posOf_eq_none.2 hks]
              have hsing : posOf [rowKey r] k = none := by
                simp [posOf, hk]
              rw [hsing]
              rfl
        have hc' : c + 1 = (seen ++ [rowKey r]).length + 1 := by
          simp [hc]
        have hrec := ih (seen ++ [rowKey r]) ((rowKey r, c) :: m) (c + 1) hm' hc'
        have hcongr : uniqueFirstAux (rs.map rowKey) (seen ++ [rowKey r])
            = uniqueFirstAux (rs.map rowKey) (rowKey r :: seen) := by
          refine uniqueFirstAux_congr _ ?_
          intro x
          simp [List.mem_append, List.mem_cons, or_comm]
        rw [hcongr, List.append_assoc, List.singleton_append] at hrec
        exact hrec

theorem ids_map (df : List Row) :
    (assign_ids df).map Row.elementId = df.map (specElementId df) := by
  have h := assignGo_ids df [] [] 1 (fun k => rfl) rfl
  rw [assign_ids]
  exact h

end IdLemmas

section ValidateLemmas

theorem setMapStep_fold {β : Type} (f : β → β) :
    ∀ (idxs : List Nat) (acc : List β) (j : Nat), idxs.Nodup →
      (idxs.foldl (setMapStep f) acc)[j]?
        = if j ∈ idxs then (acc[j]?).map f else acc[j]? := by
  intro idxs
  induction idxs with
  | nil => intro acc j _; simp
  | cons i idxs ih =>
    intro acc j hnd
    rcases List.nodup_cons.1 hnd with ⟨hi, hnd'⟩
    rw [List.foldl_cons, ih _ _ hnd']
    by_cases hji : j = i
    · subst hji
      rw [if_neg hi, if_pos (List.mem_cons_self j idxs)]
      cases haj : acc[j]? with
      | none => simp [setMapStep, haj]
      | some x =>
        have hlt : j < acc.length := (List.getElem?_eq_some.1 haj).1
        simp [setMapStep, haj, List.getElem?_set_self hlt]
    · have hstep : (setMapStep f acc i)[j]? = acc[j]? := by
        cases hai : acc[i]? with
        | none => simp [setMapStep, hai]
        | some x => simp [setMapStep, hai, List.getElem?_set_ne (fun hc => hji hc.symm)]
      rw [hstep]
      by_cases hj2 : j ∈ idxs
      · rw [if_pos hj2, if_pos (List.mem_cons_of_mem _ hj2)]
      · rw [if_neg hj2, if_neg (by simp [List.mem_cons, hji, hj2])]

theorem validate_char (user_data_summary : List (String × List String)) (df : List TRow) :
    validate_fields user_data_summary df
      = df.map (validateRowImpl
          (user_data_summary.map (fun p => (p.1, p.2.map sanitize_field)))) := by
  refine List.ext_getElem? ?_
  intro j
  simp only [validate_fields]
  rw [setMapStep_fold _ _ _ _ (List.nodup_range _), List.getElem?_map]
  by_cases hj : j < df.length
  · rw [if_pos (List.mem_range.2 hj)]
  · rw [if_neg (fun hc => hj (List.mem_range.1 hc)),
      List.getElem?_eq_none (Nat.le_of_not_lt hj)]
    rfl

end ValidateLemmas

section SpecBridges

theorem panelImplUpd_eq_spec (df : List Row) (r : Row) :
    panelImplUpd df r = panelSpecUpd df r := by
  unfold panelImplUpd panelSpecUpd
  rw [placeMap_eq_spec]

end SpecBridges

/-! ### Claim theorems -/

/-- Claim C1: for every module, `layoutPanels` processes that module's
dashboards in first-seen order, sizes each dashboard group's panel by the
spec's width/height formulas (`specPanelWidth`, `specPanelHeight`, with the
spec enum label `ReportSummary` denoting the source string
`"Report Summary"`), and packs the panels along a module-local cursor that
starts at `(0,0)`, advances `currentX` by the width after each placement, and
wraps at `currentX ≥ 18` adding `maxHeightInRow + 5` to `currentY`
(`specPlaceMap`).  The second conjunct replays the spec's wrap example: six
width-6 panels wrap after three. -/
theorem C1_panel_layout :
    (∀ df : List Row,
      position_dashboard_panels_by_module df = df.map (panelSpecUpd df)) ∧
    (position_dashboard_panels_by_module dfWrap).map
        (fun r => (r.posX, r.posY, r.width, r.height))
      = [(0, 0, 6, 14), (6, 0, 6, 14), (12, 0, 6, 14),
         (0, 19, 6, 14), (6, 19, 6, 14), (12, 19, 6, 14)] := by
  constructor
  · intro df
    rw [panels_char df]
    exact List.map_congr_left (fun r _ => panelImplUpd_eq_spec df r)
  · decide

/-- Claim C2: `layoutFields` orders each dashboard group's rows by a stable
sort (`sortIdx` is a permutation of the group, pairwise non-decreasing in the
priority score, and preserves the relative order of rows with equal scores),
where the score (`advanced_field_priority`) agrees with the spec's table of
six ordered pattern groups (id -10, name -5, date 0, status 5, amount 10,
contact 15; no match 20; non-string 100), and the example fields
Description/OrderID/CreatedDate sort to OrderID/CreatedDate/Description. -/
theorem C2_field_priority_sort :
    (∀ f : Option String, advanced_field_priority f = prioritySpec f) ∧
    (∀ (df : List Row) (d : String),
      (sortIdx df d).Perm (dashIdxs df d) ∧
      (sortIdx df d).Pairwise (fun i j => priKey df i ≤ priKey df j) ∧
      (∀ v : Int, (sortIdx df d).filter (fun i => priKey df i = v)
        = (dashIdxs df d).filter (fun i => priKey df i = v))) ∧
    ((sortIdx dfPriority "D").map (fun i => (dfPriority.getD i default).field)
      = [some "OrderID", some "CreatedDate", some "Description"]) ∧
    (advanced_field_priority (some "OrderID") = -10 ∧
     advanced_field_priority (some "CreatedDate") = 0 ∧
     advanced_field_priority (some "Description") = 20) := by
  refine ⟨?_, ?_, by decide, by decide, by decide, by decide⟩
  · intro f
    cases f with
    | none => rfl
    | some s =>
      by_cases h1 : ID_PATTERN.any (fun p => containsSub (normalizeFieldName s) p) = true <;>
        by_cases h2 : NAME_PATTERN.any (fun p => containsSub (normalizeFieldName s) p) = true <;>
        by_cases h3 : DATE_PATTERN.any (fun p => containsSub (normalizeFieldName s) p) = true <;>
        by_cases h4 :
          STATUS_PATTERN.any (fun p => containsSub (normalizeFieldName s) p) = true <;>
        by_cases h5 :
          AMOUNT_PATTERN.any (fun p => containsSub (normalizeFieldName s) p) = true <;>
        by_cases h6 :
          CONTACT_PATTERN.any (fun p => containsSub (normalizeFieldName s) p) = true <;>
        simp [advanced_field_priority, prioritySpec, List.find?, h1, h2, h3, h4, h5, h6]
  · intro df d
    exact ⟨insSortBy_perm _ _, insSortBy_pairwise _ _,
      fun v => insSortBy_filter_key _ v _⟩

/-- Claim C3: `layoutFields` groups rows by dashboard name alone (globally —
the example `dfShared` mixes two modules into one shared sub-grid); the
sub-grid column count is `min (max 1 (ceilSqrt n)) 4 = clamp(ceil(sqrt n),1,4)`;
and the row at sorted position `p` receives `x = 3 + (p mod cc) * 60` and
`y = 5 + (p div cc) * 55`. -/
theorem C3_field_grid :
    (∀ (df : List Row) (d : String) (p i : Nat), (sortIdx df d)[p]? = some i →
      ((position_dashboard_fields df).getD i default).posX1
          = 3 + p % columnCountOf (dashIdxs df d).length * 60 ∧
      ((position_dashboard_fields df).getD i default).posY1
          = 5 + p / columnCountOf (dashIdxs df d).length * 55) ∧
    (∀ n : Nat, columnCountOf n = min (max 1 (ceilSqrt n)) 4) ∧
    ((position_dashboard_fields dfShared).map (fun r => (r.posX1, r.posY1))
      = [(3, 5), (63, 5)]) := by
  refine ⟨?_, fun n => rfl, by decide⟩
  intro df d p i hp
  have hnd : (sortIdx df d).Nodup :=
    ((insSortBy_perm _ _).nodup_iff).2 (List.Nodup.filter _ (List.nodup_range _))
  have hpos : posOf (sortIdx df d) i = some p := posOf_of_getElem? hnd hp
  have hmemIdx : i ∈ dashIdxs df d := (mem_insSortBy _).1 (List.getElem?_mem hp)
  have hlen : i < df.length := by
    have := List.mem_filter.1 hmemIdx
    exact List.mem_range.1 this.1
  obtain ⟨r0, hdi⟩ : ∃ r0, df[i]? = some r0 := by
    rw [List.getElem?_eq_getElem hlen]
    exact ⟨_, rfl⟩
  have hg : df.getD i default = r0 := getD_of_getElem? hdi
  have hdashb : r0.dashboard = d := by
    have hcond := (List.mem_filter.1 hmemIdx).2
    rw [hg] at hcond
    simpa using hcond
  have hres : (position_dashboard_fields df).getD i default = fieldRowUpd df i := by
    rw [List.getD_eq_getElem?_getD, fields_char df i, hdi]
    rfl
  rw [hres]
  constructor <;>
    simp [fieldRowUpd, hdi, hdashb, hpos, applyPosLookup, INITIAL_X, INITIAL_Y,
      HORIZONTAL_STEP, VERTICAL_STEP]

/-- Witness for C3 at a concrete input: in `dfShared`, the row at sorted
position 0 is DataFrame index 0 and receives `x = 3 + 0 * 60`. -/
theorem C3_field_grid_witness :
    ((sortIdx dfShared "D")[0]? = some 0) ∧
    ((position_dashboard_fields dfShared).getD 0 default).posX1
        = 3 + 0 % columnCountOf (dashIdxs dfShared "D").length * 60 :=
  ⟨by decide, (C3_field_grid.1 dfShared "D" 0 0 (by decide)).1⟩

/-- Claim C4: every row with a string field name is sized by `fieldSize`:
default width 50 / height 74, overridden (first match wins) by
description/comment/notes → (100, 100), else date pattern → height 64, else
id pattern → height 50; afterwards a raw name longer than 15 characters gets
width `min(width * 1.5, 100)`.  Examples: "Notes" → 100×100, "ModifiedDate"
→ height 64, and the 21-character "WarehouseLocationCity" → width 75. -/
theorem C4_field_sizing :
    (∀ (df : List Row) (i : Nat) (name : String), i < df.length →
      (df.getD i default).field = some name →
      ((position_dashboard_fields df).getD i default).width1 = (fieldSize name).1 ∧
      ((position_dashboard_fields df).getD i default).height1 = (fieldSize name).2) ∧
    fieldSize "Notes" = (100, 100) ∧
    fieldSize "ModifiedDate" = (50, 64) ∧
    (fieldSize "WarehouseLocationCity" = (75, 74) ∧
      "WarehouseLocationCity".length = 21) ∧
    ((position_dashboard_fields dfSizing).map (fun r => (r.width1, r.height1))
      = [(100, 100), (50, 64), (75, 74)]) := by
  refine ⟨?_, by decide, by decide, ⟨by decide, by decide⟩, by decide⟩
  intro df i name hlen hfield
  have hsome : df[i]? = some (df.getD i default) := by
    rw [List.getD_eq_getElem?_getD, List.getElem?_eq_getElem hlen]
    rfl
  have hres : (position_dashboard_fields df).getD i default = fieldRowUpd df i := by
    rw [List.getD_eq_getElem?_getD, fields_char df i, hsome]
    rfl
  have hmemIdx : i ∈ dashIdxs df ((df.getD i default).dashboard) := by
    unfold dashIdxs
    exact List.mem_filter.2 ⟨List.mem_range.2 hlen, by simp⟩
  have hmemSort : i ∈ sortIdx df ((df.getD i default).dashboard) :=
    (mem_insSortBy _).2 hmemIdx
  rcases posOf_isSome_of_mem hmemSort with ⟨p, hp⟩
  rw [hres]
  simp only [fieldRowUpd, hp, applyPosLookup]
  exact ⟨applyFieldGeom_width1_some hfield _ _, applyFieldGeom_height1_some hfield _ _⟩

/-- Witness for C4 at a concrete input: row 0 of `dfSizing` is named "Notes"
and receives width `(fieldSize "Notes").1 = 100`. -/
theorem C4_field_sizing_witness :
    (0 < dfSizing.length ∧ (dfSizing.getD 0 default).field = some "Notes") ∧
    ((position_dashboard_fields dfSizing).getD 0 default).width1
      = (fieldSize "Notes").1 :=
  ⟨⟨by decide, by decide⟩,
    (C4_field_sizing.1 dfSizing 0 "Notes" (by decide) (by decide)).1⟩

/-- Claim C5: the validator maps each row independently; a field is accepted
exactly when its sanitized form is among the table's (sanitized) valid
columns, and is replaced by the fallback `"Record ID"` otherwise; the display
field follows the same rule but also accepts `"Record ID"` verbatim; the
pipeline is a total function (never aborts).  The example uses valid columns
OrderID/Status: `"Order_ID"` sanitizes to `"OrderID"` and is accepted,
`"Bogus"` falls back to `"Record ID"`. -/
theorem C5_validator_fallback :
    (∀ (user_data_summary : List (String × List String)) (df : List TRow),
      validate_fields user_data_summary df
        = df.map (validateRowImpl
            (user_data_summary.map (fun p => (p.1, p.2.map sanitize_field))))) ∧
    (∀ (sanitized : List (String × List String)) (row : TRow),
      (validateRowImpl sanitized row).tableName = row.tableName ∧
      (validateRowImpl sanitized row).field
        = (if sanitize_field row.field ∈ (alookup row.tableName sanitized).getD []
           then sanitize_field row.field else "Record ID") ∧
      (validateRowImpl sanitized row).displayField
        = (if sanitize_field row.displayField ∈ (alookup row.tableName sanitized).getD []
              ∨ sanitize_field row.displayField = "Record ID"
           then sanitize_field row.displayField else "Record ID")) ∧
    (validate_fields summaryEx dfValidate
      = [{ tableName := "Orders", field := "OrderID", displayField := "Status" },
         { tableName := "Orders", field := "Record ID", displayField := "Record ID" }]) := by
  refine ⟨validate_char, ?_, by decide⟩
  intro sanitized row
  unfold validateRowImpl
  by_cases h1 : sanitize_field row.field ∈ (alookup row.tableName sanitized).getD [] <;>
    by_cases h2 :
      sanitize_field row.displayField ∈ (alookup row.tableName sanitized).getD [] <;>
    by_cases h3 : sanitize_field row.displayField = "Record ID" <;>
    simp [h1, h2, h3]

/-- Claim C6: `assign_ids` stamps every row with the string form of a counter
keyed on `module ++ "|" ++ dashboard`, starting at 1 and incremented on first
sight of each new key in row order — equivalently, one plus the position of
the row's key among the distinct keys in first-seen order (`specElementId`);
the rows (M1,D1),(M1,D1),(M1,D2),(M2,D1) receive ids "1","1","2","3". -/
theorem C6_element_ids :
    (∀ df : List Row, (assign_ids df).map Row.elementId = df.map (specElementId df)) ∧
    ((assign_ids dfIds).map Row.elementId = ["1", "1", "2", "3"]) :=
  ⟨ids_map, by decide⟩

/-- Claim C7: the serializer assigns to every row of a `(dashboard,
objectName, viewType)` group the string built from the group's distinct
non-null field names in encounter order, minus the fallback identifier
(compared case-insensitively after trimming), each cleaned of spaces and
rendered as `name::False::0::0` segments joined by `|`; the example fields
"Order ID"/"Record ID"/"Ship Date" serialize to
`"OrderID::False::0::0|ShipDate::False::0::0"`. -/
theorem C7_view_attributes :
    (∀ df : List Row,
      generate_view_type_attributes df
        = df.map (fun r =>
            { r with attrs := serializeGroup (df.filter (fun q => vtKey q = vtKey r)) })) ∧
    (serializeGroup dfAttrs = "OrderID::False::0::0|ShipDate::False::0::0") ∧
    ((generate_view_type_attributes dfAttrs).map Row.attrs
      = ["OrderID::False::0::0|ShipDate::False::0::0",
         "OrderID::False::0::0|ShipDate::False::0::0",
         "OrderID::False::0::0|ShipDate::False::0::0"]) :=
  ⟨fun df => attrs_char df, by decide, by decide⟩

/-- Claim C8: `sanitize_field` is idempotent and its output contains no
character of the forbidden set; as a Lean function it is pure and total. -/
theorem C8_sanitize_idempotent (s : String) :
    sanitize_field (sanitize_field s) = sanitize_field s ∧
    ∀ c, c ∈ invalid_chars → c ∉ (sanitize_field s).data := by
  constructor
  · apply String.ext
    rw [sanitize_field_data, sanitize_field_data, List.filter_filter]
    refine List.filter_congr ?_
    intro x _
    by_cases h : x ∈ invalid_chars <;> simp [h]
  · intro c hc hmem
    rw [sanitize_field_data] at hmem
    rcases List.mem_filter.1 hmem with ⟨_, h2⟩
    rw [decide_eq_true_eq] at h2
    exact h2 hc

/-- Witness for C8 at a concrete input. -/
theorem C8_sanitize_idempotent_witness :
    ('_' ∈ invalid_chars) ∧ '_' ∉ (sanitize_field "a_b.c").data :=
  ⟨by decide, (C8_sanitize_idempotent "a_b.c").2 '_' (by decide)⟩

/-- Claim C9: after panel layout all rows of one `(module, dashboard)` pair
carry identical panel geometry, equal to the computed geometry
(`panelGeomFor`); the later field-layout and serialization passes preserve
panel geometry, the grouping keys and, respectively, everything except the
field-level geometry / the attribute string. -/
theorem C9_panel_geometry_invariant :
    (∀ (df : List Row) (r₁ r₂ : Row),
      r₁ ∈ position_dashboard_panels_by_module df →
      r₂ ∈ position_dashboard_panels_by_module df →
      r₁.module = r₂.module → r₁.dashboard = r₂.dashboard →
      (r₁.posX, r₁.posY, r₁.width, r₁.height) = (r₂.posX, r₂.posY, r₂.width, r₂.height)) ∧
    (∀ (df : List Row) (r : Row), r ∈ position_dashboard_panels_by_module df →
      (r.posX, r.posY, r.width, r.height) = panelGeomFor df r.module r.dashboard) ∧
    (∀ (df : List Row) (i : Nat),
      (((position_dashboard_fields df).getD i default).module,
       ((position_dashboard_fields df).getD i default).dashboard,
       ((position_dashboard_fields df).getD i default).posX,
       ((position_dashboard_fields df).getD i default).posY,
       ((position_dashboard_fields df).getD i default).width,
       ((position_dashboard_fields df).getD i default).height,
       ((position_dashboard_fields df).getD i default).elementId,
       ((position_dashboard_fields df).getD i default).attrs)
        = ((df.getD i default).module, (df.getD i default).dashboard,
           (df.getD i default).posX, (df.getD i default).posY,
           (df.getD i default).width, (df.getD i default).height,
           (df.getD i default).elementId, (df.getD i default).attrs)) ∧
    (∀ (df : List Row) (i : Nat),
      (((generate_view_type_attributes df).getD i default).module,
       ((generate_view_type_attributes df).getD i default).dashboard,
       ((generate_view_type_attributes df).getD i default).posX,
       ((generate_view_type_attributes df).getD i default).posY,
       ((generate_view_type_attributes df).getD i default).width,
       ((generate_view_type_attributes df).getD i default).height,
       ((generate_view_type_attributes df).getD i default).posX1,
       ((generate_view_type_attributes df).getD i default).posY1,
       ((generate_view_type_attributes df).getD i default).width1,
       ((generate_view_type_attributes df).getD i default).height1)
        = ((df.getD i default).module, (df.getD i default).dashboard,
           (df.getD i default).posX, (df.getD i default).posY,
           (df.getD i default).width, (df.getD i default).height,
           (df.getD i default).posX1, (df.getD i default).posY1,
           (df.getD i default).width1, (df.getD i default).height1)) := by
  have hgeom : ∀ (df : List Row) (r : Row), r ∈ position_dashboard_panels_by_module df →
      (r.posX, r.posY, r.width, r.height) = panelGeomFor df r.module r.dashboard := by
    intro df r hr
    rw [panels_char df] at hr
    rcases List.mem_map.1 hr with ⟨r0, hr0, rfl⟩
    have hmr : r0 ∈ mrowsOf df r0.module := by
      unfold mrowsOf
      exact List.mem_filter.2 ⟨hr0, by simp⟩
    have hdm : r0.dashboard ∈ uniqueFirst ((mrowsOf df r0.module).map Row.dashboard) :=
      mem_uniqueFirst.2 (List.mem_map_of_mem Row.dashboard hmr)
    rcases alookup_placeMap_mem 0 0 0 hdm with ⟨g, hg⟩
    rcases g with ⟨x, y, w, h⟩
    unfold panelImplUpd
    rw [hg]
    unfold panelGeomFor
    rw [applyPanelLookup_module, applyPanelLookup_dashboard, hg]
    rfl
  refine ⟨?_, hgeom, ?_, ?_⟩
  · intro df r₁ r₂ h1 h2 hm hd
    rw [hgeom df r₁ h1, hgeom df r₂ h2, hm, hd]
  · intro df i
    rw [List.getD_eq_getElem?_getD, fields_char df i, List.getD_eq_getElem?_getD]
    cases hdi : df[i]? with
    | none => rfl
    | some r =>
      simp only [Option.map_some', Option.getD_some]
      simp [fieldRowUpd, hdi]
  · intro df i
    rw [List.getD_eq_getElem?_getD, attrs_char df, List.getElem?_map,
      List.getD_eq_getElem?_getD]
    cases hdi : df[i]? with
    | none => rfl
    | some r =>
      simp only [Option.map_some', Option.getD_some]
      simp [attrsRowUpd]

/-- Witness for C9 at a concrete input: the first row of the laid-out
`dfWrap` carries the computed geometry of module M, dashboard D1. -/
theorem C9_panel_geometry_invariant_witness :
    (({ module := "M", dashboard := "D1", objectType := "Table",
        viewType := "List" } : Row) ∈ position_dashboard_panels_by_module dfWrap) ∧
    (({ module := "M", dashboard := "D1", objectType := "Table",
        viewType := "List" } : Row).posX,
     ({ module := "M", dashboard := "D1", objectType := "Table",
        viewType := "List" } : Row).posY,
     ({ module := "M", dashboard := "D1", objectType := "Table",
        viewType := "List" } : Row).width,
     ({ module := "M", dashboard := "D1", objectType := "Table",
        viewType := "List" } : Row).height)
      = panelGeomFor dfWrap "M" "D1" :=
  ⟨by decide, C9_panel_geometry_invariant.2.1 dfWrap _ (by decide)⟩

/-- Claim C10: a row whose field value is not a string scores 100 in the
layout sort and its field-box sizing is left at the initialized defaults
(width 50, height 50 in `dfNonString`); the pass is a total function and
raises no error. -/
theorem C10_nonstring_field :
    advanced_field_priority none = 100 ∧
    (∀ (df : List Row) (i : Nat), (df.getD i default).field = none →
      ((position_dashboard_fields df).getD i default).width1
          = (df.getD i default).width1 ∧
      ((position_dashboard_fields df).getD i default).height1
          = (df.getD i default).height1) ∧
    ((position_dashboard_fields dfNonString).map (fun r => (r.width1, r.height1))
      = [(50, 50)]) := by
  refine ⟨rfl, ?_, by decide⟩
  intro df i hf
  rw [List.getD_eq_getElem?_getD, fields_char df i, List.getD_eq_getElem?_getD]
  cases hdi : df[i]? with
  | none => exact ⟨rfl, rfl⟩
  | some r =>
    simp only [Option.map_some', Option.getD_some]
    have hg : df.getD i default = r := getD_of_getElem? hdi
    rw [hg] at hf
    constructor
    · simp only [fieldRowUpd, hg]
      cases hpos : posOf (sortIdx df r.dashboard) i with
      | none => simp [applyPosLookup]
      | some p => simp [applyPosLookup, applyFieldGeom_width1_none hf]
    · simp only [fieldRowUpd, hg]
      cases hpos : posOf (sortIdx df r.dashboard) i with
      | none => simp [applyPosLookup]
      | some p => simp [applyPosLookup, applyFieldGeom_height1_none hf]

/-- Witness for C10 at a concrete input. -/
theorem C10_nonstring_field_witness :
    ((dfNonString.getD 0 default).field = none) ∧
    ((position_dashboard_fields dfNonString).getD 0 default).width1
      = (dfNonString.getD 0 default).width1 :=
  ⟨by decide, (C10_nonstring_field.2.1 dfNonString 0 (by decide)).1⟩

end TFMeta
